import Mathlib

/-!
# protobuf-c runtime API (`protobuf-c.h`): a verification development

Shallow embedding of the declarations of `protobuf-c/protobuf-c.h` and of the
operations the header declares.  Enumerations, structures, macros and constants
are transcribed from the header.  The bodies of the functions the header only
declares (the varint codec, sizing, pack, unpack, the int-range lookup) are not
part of the header; each such definition is marked `Modelled from the spec:`.

Conventions: C pointers are natural-number addresses with `NULL = 0`; a byte
(`uint8_t`) is a natural number below 256; fixed-width integers are natural
numbers holding the bit pattern, with explicit reduction modulo `2 ^ w`.
-/

namespace ProtobufC

/-! ## Enumerations of the header -/

/-- The enumeration `ProtobufCLabel` (header lines 109-113). -/
inductive ProtobufCLabel where
  | PROTOBUF_C_LABEL_REQUIRED
  | PROTOBUF_C_LABEL_OPTIONAL
  | PROTOBUF_C_LABEL_REPEATED
  deriving DecidableEq, Repr

/-- The enumeration `ProtobufCType` (header lines 115-134), enumerators in
declaration order; `PROTOBUF_C_TYPE_GROUP` is commented out in the header. -/
inductive ProtobufCType where
  | PROTOBUF_C_TYPE_INT32
  | PROTOBUF_C_TYPE_SINT32
  | PROTOBUF_C_TYPE_SFIXED32
  | PROTOBUF_C_TYPE_INT64
  | PROTOBUF_C_TYPE_SINT64
  | PROTOBUF_C_TYPE_SFIXED64
  | PROTOBUF_C_TYPE_UINT32
  | PROTOBUF_C_TYPE_FIXED32
  | PROTOBUF_C_TYPE_UINT64
  | PROTOBUF_C_TYPE_FIXED64
  | PROTOBUF_C_TYPE_FLOAT
  | PROTOBUF_C_TYPE_DOUBLE
  | PROTOBUF_C_TYPE_BOOL
  | PROTOBUF_C_TYPE_ENUM
  | PROTOBUF_C_TYPE_STRING
  | PROTOBUF_C_TYPE_BYTES
  | PROTOBUF_C_TYPE_MESSAGE
  deriving DecidableEq, Repr, Fintype

open ProtobufCLabel ProtobufCType

/-- Every enumerator of `ProtobufCType`, in declaration order. -/
def ProtobufCType.enumerators : List ProtobufCType :=
  [PROTOBUF_C_TYPE_INT32, PROTOBUF_C_TYPE_SINT32, PROTOBUF_C_TYPE_SFIXED32,
   PROTOBUF_C_TYPE_INT64, PROTOBUF_C_TYPE_SINT64, PROTOBUF_C_TYPE_SFIXED64,
   PROTOBUF_C_TYPE_UINT32, PROTOBUF_C_TYPE_FIXED32, PROTOBUF_C_TYPE_UINT64,
   PROTOBUF_C_TYPE_FIXED64, PROTOBUF_C_TYPE_FLOAT, PROTOBUF_C_TYPE_DOUBLE,
   PROTOBUF_C_TYPE_BOOL, PROTOBUF_C_TYPE_ENUM, PROTOBUF_C_TYPE_STRING,
   PROTOBUF_C_TYPE_BYTES, PROTOBUF_C_TYPE_MESSAGE]

/-- The split `{scalar, ENUM, MESSAGE}` of the field types: a type is scalar
when it is neither `PROTOBUF_C_TYPE_ENUM` nor `PROTOBUF_C_TYPE_MESSAGE`. -/
def ProtobufCType.is_scalar : ProtobufCType → Bool
  | PROTOBUF_C_TYPE_ENUM => false
  | PROTOBUF_C_TYPE_MESSAGE => false
  | _ => true

/-- The enumeration `ProtobufCWireType` (header lines 457-464). -/
inductive ProtobufCWireType where
  | PROTOBUF_C_WIRE_TYPE_VARINT
  | PROTOBUF_C_WIRE_TYPE_64BIT
  | PROTOBUF_C_WIRE_TYPE_LENGTH_PREFIXED
  | PROTOBUF_C_WIRE_TYPE_START_GROUP
  | PROTOBUF_C_WIRE_TYPE_END_GROUP
  | PROTOBUF_C_WIRE_TYPE_32BIT
  deriving DecidableEq, Repr, Fintype

open ProtobufCWireType

/-- The numeric value of a `ProtobufCWireType` enumerator.  The header gives no
explicit initialisers, so C numbers the enumerators 0, 1, 2, ... in
declaration order. -/
def ProtobufCWireType.value : ProtobufCWireType → Nat
  | PROTOBUF_C_WIRE_TYPE_VARINT => 0
  | PROTOBUF_C_WIRE_TYPE_64BIT => 1
  | PROTOBUF_C_WIRE_TYPE_LENGTH_PREFIXED => 2
  | PROTOBUF_C_WIRE_TYPE_START_GROUP => 3
  | PROTOBUF_C_WIRE_TYPE_END_GROUP => 4
  | PROTOBUF_C_WIRE_TYPE_32BIT => 5

/-- The enumerator of `ProtobufCWireType` with a given numeric value, if any. -/
def ProtobufCWireType.of_value : Nat → Option ProtobufCWireType
  | 0 => some PROTOBUF_C_WIRE_TYPE_VARINT
  | 1 => some PROTOBUF_C_WIRE_TYPE_64BIT
  | 2 => some PROTOBUF_C_WIRE_TYPE_LENGTH_PREFIXED
  | 3 => some PROTOBUF_C_WIRE_TYPE_START_GROUP
  | 4 => some PROTOBUF_C_WIRE_TYPE_END_GROUP
  | 5 => some PROTOBUF_C_WIRE_TYPE_32BIT
  | _ => none

/-- The enumeration `ProtobufCFieldFlag` (header lines 276-282):
`PROTOBUF_C_FIELD_FLAG_PACKED = (1 << 0)`. -/
def PROTOBUF_C_FIELD_FLAG_PACKED : Nat := 1 <<< 0

/-- The flag `PROTOBUF_C_FIELD_FLAG_DEPRECATED = (1 << 1)`. -/
def PROTOBUF_C_FIELD_FLAG_DEPRECATED : Nat := 1 <<< 1

/-! ## Constants of the header -/

/-- The macro `PROTOBUF_C__SERVICE_DESCRIPTOR_MAGIC` (header line 506). -/
def PROTOBUF_C__SERVICE_DESCRIPTOR_MAGIC : Nat := 0x14159bc3

/-- The macro `PROTOBUF_C__MESSAGE_DESCRIPTOR_MAGIC` (header line 507). -/
def PROTOBUF_C__MESSAGE_DESCRIPTOR_MAGIC : Nat := 0x28aaeef9

/-- The macro `PROTOBUF_C__ENUM_DESCRIPTOR_MAGIC` (header line 508). -/
def PROTOBUF_C__ENUM_DESCRIPTOR_MAGIC : Nat := 0x114315af

/-! ## Pointers, headers, allocator, simple buffer -/

/-- A C pointer: an address. -/
abbrev Ptr := Nat

/-- The null pointer. -/
def NULL : Ptr := 0

/-- The structure `ProtobufCMessage` (header lines 344-348): the header every
message instance starts with.  `descriptor` and `unknown_fields` are pointers. -/
structure ProtobufCMessage where
  descriptor : Ptr
  n_unknown_fields : Nat
  unknown_fields : Ptr
  deriving DecidableEq, Repr

/-- The macro `PROTOBUF_C_MESSAGE_INIT(descriptor)`, `{ descriptor, 0, NULL }`
(header line 350). -/
def PROTOBUF_C_MESSAGE_INIT (descriptor : Ptr) : ProtobufCMessage :=
  { descriptor := descriptor, n_unknown_fields := 0, unknown_fields := NULL }

/-- The structure `ProtobufCAllocator` (header lines 146-151) over a world
state `σ`.  `free allocator_data pointer` is the effect of the callback; the
`alloc` callback is not used by the header's macros and is left out. -/
structure ProtobufCAllocator (σ : Type) where
  free : Ptr → Ptr → σ → σ
  allocator_data : Ptr

/-- The structure `ProtobufCBufferSimple` (header lines 478-484); `base` holds
the address of the `append` callback. -/
structure ProtobufCBufferSimple where
  base : Ptr
  alloced : Nat
  len : Nat
  data : Ptr
  must_free_data : Int
  deriving DecidableEq, Repr

/-- The macro `PROTOBUF_C_BUFFER_SIMPLE_INIT(array_of_bytes)` (header lines
486-493); `append` is the address of `protobuf_c_buffer_simple_append`,
`array_of_bytes` the address of the caller array and `size` its `sizeof`. -/
def PROTOBUF_C_BUFFER_SIMPLE_INIT (append : Ptr) (array_of_bytes : Ptr) (size : Nat) :
    ProtobufCBufferSimple :=
  { base := append, alloced := size, len := 0, data := array_of_bytes, must_free_data := 0 }

/-- The macro `PROTOBUF_C_BUFFER_SIMPLE_CLEAR(simp_buf)` (header lines 495-502).
`default_allocator` is the global `protobuf_c_default_allocator` and
`default_allocator_addr` its address `&protobuf_c_default_allocator`, which is
what the macro passes as the first argument of `free`. -/
def PROTOBUF_C_BUFFER_SIMPLE_CLEAR {σ : Type} (default_allocator : ProtobufCAllocator σ)
    (default_allocator_addr : Ptr) (simp_buf : ProtobufCBufferSimple) (world : σ) : σ :=
  if simp_buf.must_free_data ≠ 0 then
    default_allocator.free default_allocator_addr simp_buf.data world
  else
    world

/-- An allocator whose `free` callback records its two arguments, in call
order, in a log. -/
def recording_allocator (allocator_data : Ptr) : ProtobufCAllocator (List (Ptr × Ptr)) :=
  { free := fun data pointer log => log ++ [(data, pointer)], allocator_data := allocator_data }

/-! ## Wire keys and the wire-type table -/

/-- Modelled from the spec: the key that starts every field on the wire,
`(field_tag << 3) | wire_type`, computed in the `uint32_t` type of the field
id (`ProtobufCFieldDescriptor.id`, `ProtobufCMessageUnknownField.tag`).  The
function that builds keys is not part of the header. -/
def wire_key (tag : Nat) (wire_type : ProtobufCWireType) : Nat :=
  ((tag <<< 3) ||| wire_type.value) % 2 ^ 32

/-- Modelled from the spec: the tag of a key, `tag = key >> 3`. -/
def key_tag (key : Nat) : Nat := key >>> 3

/-- Modelled from the spec: the wire type bits of a key, `wire_type = key & 7`. -/
def key_wire_type (key : Nat) : Nat := key &&& 7

/-- Modelled from the spec: the four rows of the table "wire-type vs
declared-type compatibility" of the unpack engine, each row with the wire
type it accepts for a single (non-packed) value.  The table lives in the
runtime's source file, which is not part of the header. -/
def wire_type_table : List (List ProtobufCType × ProtobufCWireType) :=
  [ ([PROTOBUF_C_TYPE_INT32, PROTOBUF_C_TYPE_INT64, PROTOBUF_C_TYPE_UINT32,
      PROTOBUF_C_TYPE_UINT64, PROTOBUF_C_TYPE_SINT32, PROTOBUF_C_TYPE_SINT64,
      PROTOBUF_C_TYPE_BOOL, PROTOBUF_C_TYPE_ENUM], PROTOBUF_C_WIRE_TYPE_VARINT),
    ([PROTOBUF_C_TYPE_FIXED32, PROTOBUF_C_TYPE_SFIXED32, PROTOBUF_C_TYPE_FLOAT],
      PROTOBUF_C_WIRE_TYPE_32BIT),
    ([PROTOBUF_C_TYPE_FIXED64, PROTOBUF_C_TYPE_SFIXED64, PROTOBUF_C_TYPE_DOUBLE],
      PROTOBUF_C_WIRE_TYPE_64BIT),
    ([PROTOBUF_C_TYPE_STRING, PROTOBUF_C_TYPE_BYTES, PROTOBUF_C_TYPE_MESSAGE],
      PROTOBUF_C_WIRE_TYPE_LENGTH_PREFIXED) ]

/-- The rows of the table that list a given type. -/
def rows_of (t : ProtobufCType) : List (List ProtobufCType × ProtobufCWireType) :=
  wire_type_table.filter (fun row => decide (t ∈ row.1))

/-- The wire types the table accepts for a single value of a given type. -/
def accepted_wire_types (t : ProtobufCType) : List ProtobufCWireType :=
  (rows_of t).map Prod.snd

/-- The wire type of a single value of a given type: that of the first row of
the table listing the type. -/
def wire_type_of (t : ProtobufCType) : ProtobufCWireType :=
  (accepted_wire_types t).headD PROTOBUF_C_WIRE_TYPE_LENGTH_PREFIXED

/-! ## Int-range index -/

/-- The structure `ProtobufCIntRange` (header lines 543-551); `start_value` is an
`int`, `orig_index` an `unsigned`. -/
structure ProtobufCIntRange where
  start_value : Int
  orig_index : Nat
  deriving DecidableEq, Repr

/-- The value of type `int` (32 bits, two's complement) that an integer is
converted to. -/
def to_int (x : Int) : Int := (x + 2 ^ 31) % 2 ^ 32 - 2 ^ 31

/-- Modelled from the spec: the number of values of a range, which by the
header's note on `ProtobufCIntRange` (lines 546-550) "can be inferred by looking
at the next element's orig_index": the difference of the two `unsigned` indices,
computed in 32 bits. -/
def range_size (r next : ProtobufCIntRange) : Nat :=
  (next.orig_index + 2 ^ 32 - r.orig_index) % 2 ^ 32

/-- Modelled from the spec: the key lies in the range `r` that is followed by
`next`: it is at least the range's `start_value` and less than `range_size r next`
values above it.  (In a laid-out index this gives the
spec's `start_value ≤ key < next.start_value` whenever `next` is a non-empty
range, see `range_holds_below_next_start`.) -/
def range_holds (r next : ProtobufCIntRange) (key : Int) : Bool :=
  decide (r.start_value ≤ key) && decide (key - r.start_value < (range_size r next : Int))

/-- Modelled from the spec: the int-range lookup "locate the range whose
`start_value ≤ key < next.start_value`, return `orig_index + (key − start_value)`",
over an array of ranges that ends with the sentinel.  By the header a range
holds as many values as the next element's `orig_index` minus its own (lines
546-550), which is what bounds a range here, and the result is `-1` when no
range holds the key ("Returns -1 if no orig_index found", lines 556-558).  The
body of the lookup is not part of the header.  The result is returned as an
`int`, the return type the header declares. -/
def int_range_scan : List ProtobufCIntRange → Int → Int
  | r :: next :: rest, key =>
    if range_holds r next key then
      to_int ((r.orig_index : Int) + (key - r.start_value))
    else
      int_range_scan (next :: rest) key
  | _, _ => -1

/-- Modelled from the spec: `protobuf_c_int_ranges_lookup` (declared on header
lines 555-561) for a key: the lookup over the `n_ranges` ranges and the sentinel
that follows them. -/
def protobuf_c_int_ranges_lookup (n_ranges : Nat) (ranges : List ProtobufCIntRange)
    (key : Int) : Int :=
  int_range_scan (ranges.take (n_ranges + 1)) key

/-- The element `ranges[i]` of an array of ranges. -/
def range_at (ranges : List ProtobufCIntRange) (i : Nat) : ProtobufCIntRange :=
  ranges.getD i { start_value := 0, orig_index := 0 }

/-- The layout the header requires of an int-range index over an array `values`:
the values are strictly ascending; `n_ranges` ranges are followed by one sentinel;
the first range starts at index 0 and the sentinel's `orig_index` is the number of
values; the length of range `i` is the next element's `orig_index` minus its own
(so the `orig_index`es ascend), and the range holds the consecutive values
`start_value, start_value + 1, ...` at the indices from its `orig_index` on; the
ranges are in ascending `start_value`.  Nothing is required of the sentinel's
`start_value`. -/
def IntRangeLayout (values : List Int) (n_ranges : Nat) (ranges : List ProtobufCIntRange) :
    Prop :=
  values.Pairwise (fun a b => a < b) ∧
  ranges.length = n_ranges + 1 ∧
  (range_at ranges 0).orig_index = 0 ∧
  (range_at ranges n_ranges).orig_index = values.length ∧
  (∀ i ∈ List.range n_ranges,
    (range_at ranges i).orig_index ≤ (range_at ranges (i + 1)).orig_index ∧
    ∀ j ∈ List.range' (range_at ranges i).orig_index
        ((range_at ranges (i + 1)).orig_index - (range_at ranges i).orig_index),
      values[j]? = some ((range_at ranges i).start_value +
        ((j - (range_at ranges i).orig_index : Nat) : Int))) ∧
  (∀ i ∈ List.range (n_ranges - 1),
    (range_at ranges i).start_value < (range_at ranges (i + 1)).start_value)

/-- The layout is decidable. -/
instance (values : List Int) (n_ranges : Nat) (ranges : List ProtobufCIntRange) :
    Decidable (IntRangeLayout values n_ranges ranges) := by
  unfold IntRangeLayout; infer_instance

/-- The array of the `n` consecutive `int` values from `INT_MIN = -2^31` on. -/
def consecutive_values (n : Nat) : List Int :=
  (List.range n).map (fun (i : Nat) => (i : Int) - 2 ^ 31)

/-- The int-range index over `consecutive_values n`: one range that starts at
`INT_MIN` and the sentinel, whose `orig_index` is the number of values. -/
def consecutive_ranges (n : Nat) : List ProtobufCIntRange :=
  [{ start_value := -2 ^ 31, orig_index := 0 }, { start_value := 0, orig_index := n }]


/-! ## Varint codec -/

/-- Modelled from the spec: the bytes of a base-128 little-endian varint, "with
a continuation bit in the MSB of every byte except the last"; the first argument
bounds the number of bytes. -/
def varint_encode_loop : Nat → Nat → List Nat
  | 0, _ => []
  | fuel + 1, v =>
    if v < 128 then [v] else (v % 128 + 128) :: varint_encode_loop fuel (v / 128)

/-- Modelled from the spec: the varint of a 64-bit unsigned value, at most ten
bytes. -/
def varint_encode (v : Nat) : List Nat :=
  varint_encode_loop 10 (v % 2 ^ 64)

/-- Modelled from the spec: the "varint size" of a 64-bit unsigned value, the
number of 7-bit groups up to its highest set bit. -/
def varint_size (v : Nat) : Nat :=
  if v % 2 ^ 64 < 2 ^ 7 then 1
  else if v % 2 ^ 64 < 2 ^ 14 then 2
  else if v % 2 ^ 64 < 2 ^ 21 then 3
  else if v % 2 ^ 64 < 2 ^ 28 then 4
  else if v % 2 ^ 64 < 2 ^ 35 then 5
  else if v % 2 ^ 64 < 2 ^ 42 then 6
  else if v % 2 ^ 64 < 2 ^ 49 then 7
  else if v % 2 ^ 64 < 2 ^ 56 then 8
  else if v % 2 ^ 64 < 2 ^ 63 then 9
  else 10

/-- Modelled from the spec: varint decoding; the result is the value read and
the input that follows it.  "Decode fails with MALFORMED when more than 10
continuation bytes are read or the stream ends mid-varint": the first argument
is the number of continuation bytes still allowed. -/
def varint_decode_loop : Nat → List Nat → Option (Nat × List Nat)
  | _, [] => none
  | fuel, b :: rest =>
    if b < 128 then some (b, rest)
    else
      match fuel with
      | 0 => none
      | fuel + 1 =>
        match varint_decode_loop fuel rest with
        | some (v, rest2) => some (b % 128 + 128 * v, rest2)
        | none => none

/-- Modelled from the spec: decoding of a varint into a 64-bit unsigned value. -/
def varint_decode (input : List Nat) : Option (Nat × List Nat) :=
  match varint_decode_loop 10 input with
  | some (v, rest) => some (v % 2 ^ 64, rest)
  | none => none

/-- Modelled from the spec: the ZigZag transform `(n << 1) ^ (n >> 63)`
(arithmetic shift) on the bit pattern of a signed 64-bit value. -/
def zigzag (n : Nat) : Nat :=
  ((n <<< 1) % 2 ^ 64) ^^^ (if 2 ^ 63 ≤ n % 2 ^ 64 then 2 ^ 64 - 1 else 0)

/-- Modelled from the spec: the inverse of the ZigZag transform,
`(v >> 1) ^ -(v & 1)` on 64 bits. -/
def unzigzag (v : Nat) : Nat :=
  (v >>> 1) ^^^ (if v &&& 1 = 1 then 2 ^ 64 - 1 else 0)

/-- Modelled from the spec: sign extension to 64 bits of the bit pattern of a
signed 32-bit value ("the two's-complement bit pattern is sign-extended to 64
bits"). -/
def sign_extend (bits : Nat) : Nat :=
  if 2 ^ 31 ≤ bits % 2 ^ 32 then bits % 2 ^ 32 + (2 ^ 64 - 2 ^ 32) else bits % 2 ^ 32

/-- Modelled from the spec: a fixed-width value as `width` bytes, little-endian. -/
def fixed_encode : Nat → Nat → List Nat
  | 0, _ => []
  | width + 1, v => (v % 256) :: fixed_encode width (v / 256)

/-- Modelled from the spec: reading `width` bytes as a little-endian value; the
result is the value and the input that follows.  Fails on truncated input. -/
def fixed_decode : Nat → List Nat → Option (Nat × List Nat)
  | 0, input => some (0, input)
  | _ + 1, [] => none
  | width + 1, b :: rest =>
    match fixed_decode width rest with
    | some (v, rest2) => some (b % 256 + 256 * v, rest2)
    | none => none

/-! ## Descriptors and message records -/

/-- The structure `ProtobufCMessageUnknownField` (header lines 468-473); the
list `data` stands for the pair `len`, `data`; `tag` is a `uint32_t`. -/
structure ProtobufCMessageUnknownField where
  tag : Nat
  wire_type : ProtobufCWireType
  data : List Nat
  deriving DecidableEq, Repr

mutual
/-- Modelled from the spec: one value held by a field of a message record.
`num` is the bit pattern of a numeric, BOOL or ENUM member; `str` the characters
of a non-null `char *` before its terminating NUL; `bin` the bytes of a
`ProtobufCBinaryData`; `msg` the child record a non-null submessage pointer
points to. -/
inductive ProtobufCValue where
  | num (bits : Nat)
  | str (chars : List Nat)
  | bin (data : List Nat)
  | msg (m : MessageRecord)
/-- Modelled from the spec: a message instance, "a flat record whose first
fields are a header `(descriptor, n_unknown, unknown[])` followed by a
descriptor-defined payload".  `fields` has one slot per field of the
descriptor, in the descriptor's order (the slot is what `offset` and
`quantifier_offset` address).  A slot is the list of the values present in the
field: empty when a REQUIRED or OPTIONAL field is absent (null pointer, or
presence byte clear), one value when it is present, and the `n` elements in
order for a REPEATED field. -/
inductive MessageRecord where
  | mk (descriptor : Ptr) (fields : List (List ProtobufCValue))
      (unknown_fields : List ProtobufCMessageUnknownField)
end

/-- The `descriptor` pointer of a record's header. -/
def MessageRecord.descriptor : MessageRecord → Ptr
  | .mk d _ _ => d

/-- The payload slots of a record. -/
def MessageRecord.fields : MessageRecord → List (List ProtobufCValue)
  | .mk _ fields _ => fields

/-- The unknown fields of a record, in stored order. -/
def MessageRecord.unknown_fields : MessageRecord → List ProtobufCMessageUnknownField
  | .mk _ _ unknown => unknown

/-- The header `ProtobufCMessage` of a record whose unknown-field array lives
at address `unknown_addr`. -/
def MessageRecord.base (m : MessageRecord) (unknown_addr : Ptr) : ProtobufCMessage :=
  { descriptor := m.descriptor, n_unknown_fields := m.unknown_fields.length,
    unknown_fields := if m.unknown_fields.length = 0 then NULL else unknown_addr }

/-- The structure `ProtobufCFieldDescriptor` (header lines 260-274).
`quantifier_offset` and `offset` are represented by the position of the field's
slot in the record; `descriptor` is the address of the message descriptor of a
MESSAGE field; `default_value` is the constant a non-null `default_value`
pointer points to. -/
structure ProtobufCFieldDescriptor where
  name : String
  id : Nat
  label : ProtobufCLabel
  type : ProtobufCType
  descriptor : Ptr
  default_value : Option ProtobufCValue
  flags : Nat

/-- The structure `ProtobufCMessageDescriptor` (header lines 299-322), with
the members the engine reads: `magic`, `name` and the `n_fields` entries of
`fields`, "sorted by field-id". -/
structure ProtobufCMessageDescriptor where
  magic : Nat
  name : String
  fields : List ProtobufCFieldDescriptor

/-- The static descriptor data: the message descriptor stored at each address. -/
abbrev DescriptorTable := Ptr → ProtobufCMessageDescriptor

/-! ## Sizing and pack engines -/

/-- Modelled from the spec: a declared type has a packed form when its row of
the compatibility table accepts "also LENGTH_PREFIXED iff field is REPEATED
(packed form)", i.e. when its own wire type is not LENGTH_PREFIXED. -/
def has_packed_form (t : ProtobufCType) : Bool :=
  decide (wire_type_of t ≠ PROTOBUF_C_WIRE_TYPE_LENGTH_PREFIXED)

/-- Modelled from the spec: "Packed encoding is used when and only when a
REPEATED field has the `PACKED` flag and its element type is scalar". -/
def is_packed (f : ProtobufCFieldDescriptor) : Bool :=
  decide (f.label = PROTOBUF_C_LABEL_REPEATED) &&
    decide (f.flags &&& PROTOBUF_C_FIELD_FLAG_PACKED ≠ 0) && has_packed_form f.type

/-- Modelled from the spec: the 64-bit unsigned integer a varint-typed member
is written as.  INT32 (and ENUM, an `int`) is sign-extended to 64 bits, SINT32
and SINT64 are ZigZag-transformed, BOOL is 0 or 1. -/
def scalar_wire_value (t : ProtobufCType) (bits : Nat) : Nat :=
  match t with
  | PROTOBUF_C_TYPE_INT32 => sign_extend bits
  | PROTOBUF_C_TYPE_ENUM => sign_extend bits
  | PROTOBUF_C_TYPE_SINT32 => zigzag (sign_extend bits)
  | PROTOBUF_C_TYPE_SINT64 => zigzag bits
  | PROTOBUF_C_TYPE_UINT32 => bits % 2 ^ 32
  | PROTOBUF_C_TYPE_BOOL => if bits = 0 then 0 else 1
  | _ => bits % 2 ^ 64

/-- Modelled from the spec: the payload of a numeric, BOOL or ENUM member: a
varint, or 4 or 8 little-endian bytes, by the wire type of the declared type. -/
def pack_scalar (t : ProtobufCType) (bits : Nat) : List Nat :=
  match wire_type_of t with
  | PROTOBUF_C_WIRE_TYPE_VARINT => varint_encode (scalar_wire_value t bits)
  | PROTOBUF_C_WIRE_TYPE_32BIT => fixed_encode 4 bits
  | PROTOBUF_C_WIRE_TYPE_64BIT => fixed_encode 8 bits
  | _ => []

/-- Modelled from the spec: the payload size of a scalar, "varint length, 4, or
8". -/
def scalar_size (t : ProtobufCType) (bits : Nat) : Nat :=
  match wire_type_of t with
  | PROTOBUF_C_WIRE_TYPE_VARINT => varint_size (scalar_wire_value t bits)
  | PROTOBUF_C_WIRE_TYPE_32BIT => 4
  | PROTOBUF_C_WIRE_TYPE_64BIT => 8
  | _ => 0

/-- Modelled from the spec: the bytes of the key of a field, one varint. -/
def pack_key (tag : Nat) (wire_type : ProtobufCWireType) : List Nat :=
  varint_encode (wire_key tag wire_type)

/-- Modelled from the spec: the varint size of the key of a field. -/
def key_size (tag : Nat) (wire_type : ProtobufCWireType) : Nat :=
  varint_size (wire_key tag wire_type)

/-- Modelled from the spec: unknown fields are written "last in their stored
(arrival) order", each as its key followed by its raw bytes. -/
def pack_unknown_fields : List ProtobufCMessageUnknownField → List Nat
  | [] => []
  | u :: us => pack_key u.tag u.wire_type ++ u.data ++ pack_unknown_fields us

/-- Modelled from the spec: "UNKNOWN fields: raw byte length plus key". -/
def unknown_fields_size : List ProtobufCMessageUnknownField → Nat
  | [] => 0
  | u :: us => key_size u.tag u.wire_type + u.data.length + unknown_fields_size us

mutual
/-- Modelled from the spec: the payload of one value (what follows the key).
A scalar is written by `pack_scalar`; a string, a byte blob and a submessage
are length-prefixed, the submessage recursively. -/
def pack_value (descs : DescriptorTable) (t : ProtobufCType) : ProtobufCValue → List Nat
  | .num bits => pack_scalar t bits
  | .str chars => varint_encode chars.length ++ chars
  | .bin data => varint_encode data.length ++ data
  | .msg m => varint_encode (message_bytes descs m).length ++ message_bytes descs m
/-- Modelled from the spec: the wire bytes of a message: its fields in the
order of the descriptor's `fields` (ascending tag), then its unknown fields. -/
def message_bytes (descs : DescriptorTable) : MessageRecord → List Nat
  | .mk d fields unknown =>
    pack_slots descs (descs d).fields fields ++ pack_unknown_fields unknown
/-- Modelled from the spec: the fields of a message, slot by slot.  A packed
field with no element emits nothing, otherwise a single key, the varint of the
payload length and the concatenated element payloads; any other field emits
key and value per value present (nothing when absent). -/
def pack_slots (descs : DescriptorTable) :
    List ProtobufCFieldDescriptor → List (List ProtobufCValue) → List Nat
  | f :: fs, slot :: slots =>
    (if is_packed f then
      (if slot.isEmpty then []
       else pack_key f.id PROTOBUF_C_WIRE_TYPE_LENGTH_PREFIXED ++
         (varint_encode (pack_elements descs f.type slot).length ++
           pack_elements descs f.type slot))
     else pack_occurrences descs f slot) ++ pack_slots descs fs slots
  | _, _ => []
/-- Modelled from the spec: the concatenated element payloads of a packed field. -/
def pack_elements (descs : DescriptorTable) (t : ProtobufCType) :
    List ProtobufCValue → List Nat
  | [] => []
  | v :: vs => pack_value descs t v ++ pack_elements descs t vs
/-- Modelled from the spec: key and value of every value present in an
unpacked field. -/
def pack_occurrences (descs : DescriptorTable) (f : ProtobufCFieldDescriptor) :
    List ProtobufCValue → List Nat
  | [] => []
  | v :: vs =>
    pack_key f.id (wire_type_of f.type) ++ pack_value descs f.type v ++
      pack_occurrences descs f vs
end

mutual
/-- Modelled from the spec: the size of the payload of one value: the scalar
payload size, or for STRING, BYTES and MESSAGE "the varint size of the payload
length, plus the payload itself", recursing into submessages. -/
def value_size (descs : DescriptorTable) (t : ProtobufCType) : ProtobufCValue → Nat
  | .num bits => scalar_size t bits
  | .str chars => varint_size chars.length + chars.length
  | .bin data => varint_size data.length + data.length
  | .msg m =>
    varint_size (protobuf_c_message_get_packed_size descs m) +
      protobuf_c_message_get_packed_size descs m
/-- Modelled from the spec: `protobuf_c_message_get_packed_size` (declared on
header lines 361-362), the sizing engine: the sum of the sizes of the fields
and of the unknown fields. -/
def protobuf_c_message_get_packed_size (descs : DescriptorTable) : MessageRecord → Nat
  | .mk d fields unknown =>
    slots_size descs (descs d).fields fields + unknown_fields_size unknown
/-- Modelled from the spec: the sizes of the fields, slot by slot: "REPEATED
packed: a single key, followed by the varint size of the concatenated element
payload lengths, followed by that payload. Packed repetitions of zero elements
emit nothing at all"; otherwise the sum of per-value (key + value) sizes. -/
def slots_size (descs : DescriptorTable) :
    List ProtobufCFieldDescriptor → List (List ProtobufCValue) → Nat
  | f :: fs, slot :: slots =>
    (if is_packed f then
      (if slot.isEmpty then 0
       else key_size f.id PROTOBUF_C_WIRE_TYPE_LENGTH_PREFIXED +
         (varint_size (elements_size descs f.type slot) + elements_size descs f.type slot))
     else occurrences_size descs f slot) + slots_size descs fs slots
  | _, _ => 0
/-- Modelled from the spec: the summed payload sizes of the elements of a
packed field. -/
def elements_size (descs : DescriptorTable) (t : ProtobufCType) :
    List ProtobufCValue → Nat
  | [] => 0
  | v :: vs => value_size descs t v + elements_size descs t vs
/-- Modelled from the spec: "sum of per-element (key + value) sizes". -/
def occurrences_size (descs : DescriptorTable) (f : ProtobufCFieldDescriptor) :
    List ProtobufCValue → Nat
  | [] => 0
  | v :: vs =>
    key_size f.id (wire_type_of f.type) + value_size descs f.type v +
      occurrences_size descs f vs
end

/-- Modelled from the spec: `protobuf_c_message_pack` (declared on header lines
364-365): writes the wire bytes of the message at the start of the buffer `out`
and returns their number.  The result is the returned count and the buffer
after the call. -/
def protobuf_c_message_pack (descs : DescriptorTable) (m : MessageRecord) (out : List Nat) :
    Nat × List Nat :=
  ((message_bytes descs m).length,
    message_bytes descs m ++ out.drop (message_bytes descs m).length)

/-! ## Lifecycle: initialisation -/

/-- Modelled from the spec: the slot of a REQUIRED field with no declared
default after `init`: zero for a numeric, BOOL or ENUM member, the empty blob
for BYTES, a null pointer (no value) for STRING and MESSAGE. -/
def zero_slot (t : ProtobufCType) : List ProtobufCValue :=
  match t with
  | PROTOBUF_C_TYPE_STRING => []
  | PROTOBUF_C_TYPE_MESSAGE => []
  | PROTOBUF_C_TYPE_BYTES => [.bin []]
  | _ => [.num 0]

/-- Modelled from the spec: the slot `init` installs for a field: "any declared
defaults", and "for optionals the presence flag is cleared, for repeated the
count is zero and pointer null". -/
def init_slot (f : ProtobufCFieldDescriptor) : List ProtobufCValue :=
  match f.label with
  | PROTOBUF_C_LABEL_REQUIRED =>
    match f.default_value with
    | some v => [v]
    | none => zero_slot f.type
  | PROTOBUF_C_LABEL_OPTIONAL => []
  | PROTOBUF_C_LABEL_REPEATED => []

/-- Modelled from the spec: `protobuf_c_message_init` (declared on header lines
387-388): "writes the descriptor pointer, zeroes unknown-field count, and
installs any declared defaults". -/
def protobuf_c_message_init (descs : DescriptorTable) (d : Ptr) : MessageRecord :=
  .mk d ((descs d).fields.map init_slot) []

/-! ## Unpack engine: scan pass -/

/-- Modelled from the spec: what the scan pass records for one field on the
wire: its tag, its wire type, the length of the length prefix (0 unless
LENGTH_PREFIXED) and the raw bytes that follow the key, length prefix
included. -/
structure ScannedMember where
  tag : Nat
  wire_type : ProtobufCWireType
  length_prefix_len : Nat
  data : List Nat
  deriving DecidableEq, Repr

/-- Modelled from the spec: the extent of the value that follows a key of wire
type VARINT, 64BIT, 32BIT or LENGTH_PREFIXED: the length of the length prefix,
the raw bytes of the value, and the input after it.  A truncated value or a
length prefix that exceeds the remaining input is MALFORMED (`none`). -/
def scan_value (wire_type : ProtobufCWireType) (input : List Nat) :
    Option (Nat × List Nat × List Nat) :=
  match wire_type with
  | PROTOBUF_C_WIRE_TYPE_VARINT =>
    match varint_decode input with
    | some (_, rest) => some (0, input.take (input.length - rest.length), rest)
    | none => none
  | PROTOBUF_C_WIRE_TYPE_64BIT =>
    if 8 ≤ input.length then some (0, input.take 8, input.drop 8) else none
  | PROTOBUF_C_WIRE_TYPE_32BIT =>
    if 4 ≤ input.length then some (0, input.take 4, input.drop 4) else none
  | PROTOBUF_C_WIRE_TYPE_LENGTH_PREFIXED =>
    match varint_decode input with
    | some (len, rest) =>
      if len ≤ rest.length then
        some (input.length - rest.length, input.take (input.length - rest.length + len),
          rest.drop len)
      else none
    | none => none
  | _ => none

/-- Modelled from the spec: groups "are skipped by finding their matching
end-group tag with balanced nesting".  `open_tags` are the tags of the groups
entered and not yet closed, innermost first; the result is the input after the
END_GROUP that closes the outermost of them. -/
def skip_group : Nat → List Nat → List Nat → Option (List Nat)
  | 0, _, _ => none
  | fuel + 1, open_tags, input =>
    match varint_decode input with
    | none => none
    | some (key, rest) =>
      match ProtobufCWireType.of_value (key_wire_type key) with
      | none => none
      | some PROTOBUF_C_WIRE_TYPE_START_GROUP =>
        skip_group fuel (key_tag key % 2 ^ 32 :: open_tags) rest
      | some PROTOBUF_C_WIRE_TYPE_END_GROUP =>
        match open_tags with
        | [] => none
        | t :: ts =>
          if t = key_tag key % 2 ^ 32 then
            (if ts.isEmpty then some rest else skip_group fuel ts rest)
          else none
      | some w =>
        match scan_value w rest with
        | some (_, _, rest2) => skip_group fuel open_tags rest2
        | none => none

/-- Modelled from the spec: the scan pass: "walk the input once, decoding keys
and lengths".  The wire types 6 and 7 and an END_GROUP with no open group are
MALFORMED; a group is skipped.  The first argument bounds the number of keys
read (every key takes at least one byte). -/
def scan_members : Nat → List Nat → Option (List ScannedMember)
  | 0, input => if input.isEmpty then some [] else none
  | fuel + 1, input =>
    if input.isEmpty then some []
    else
      match varint_decode input with
      | none => none
      | some (key, rest) =>
        match ProtobufCWireType.of_value (key_wire_type key) with
        | none => none
        | some PROTOBUF_C_WIRE_TYPE_END_GROUP => none
        | some PROTOBUF_C_WIRE_TYPE_START_GROUP =>
          match skip_group fuel [key_tag key % 2 ^ 32] rest with
          | some rest2 => scan_members fuel rest2
          | none => none
        | some w =>
          match scan_value w rest with
          | none => none
          | some (plen, data, rest2) =>
            match scan_members fuel rest2 with
            | some ms =>
              some ({ tag := key_tag key % 2 ^ 32, wire_type := w, length_prefix_len := plen,
                      data := data } :: ms)
            | none => none

/-! ## Unpack engine: populate pass -/

/-- Modelled from the spec: lookup of a field descriptor by tag: the index in
`fields` of the field whose `id` is the tag. -/
def field_index : List ProtobufCFieldDescriptor → Nat → Option Nat
  | [], _ => none
  | f :: fs, tag =>
    if f.id = tag then some 0
    else
      match field_index fs tag with
      | some i => some (i + 1)
      | none => none

/-- Modelled from the spec: the member bits a decoded varint stands for: the
low 32 bits for INT32, UINT32 and ENUM, the inverse ZigZag transform for SINT32
and SINT64, 0 or 1 for BOOL, the 64 bits for INT64 and UINT64. -/
def parse_scalar (t : ProtobufCType) (raw : Nat) : Nat :=
  match t with
  | PROTOBUF_C_TYPE_INT32 => raw % 2 ^ 32
  | PROTOBUF_C_TYPE_ENUM => raw % 2 ^ 32
  | PROTOBUF_C_TYPE_UINT32 => raw % 2 ^ 32
  | PROTOBUF_C_TYPE_SINT32 => unzigzag raw % 2 ^ 32
  | PROTOBUF_C_TYPE_SINT64 => unzigzag raw
  | PROTOBUF_C_TYPE_BOOL => if raw = 0 then 0 else 1
  | _ => raw

/-- Modelled from the spec: reading one numeric, BOOL or ENUM value of the
declared type from the front of the input, by the wire type of the type. -/
def read_scalar (t : ProtobufCType) (input : List Nat) : Option (Nat × List Nat) :=
  match wire_type_of t with
  | PROTOBUF_C_WIRE_TYPE_VARINT =>
    match varint_decode input with
    | some (raw, rest) => some (parse_scalar t raw, rest)
    | none => none
  | PROTOBUF_C_WIRE_TYPE_32BIT => fixed_decode 4 input
  | PROTOBUF_C_WIRE_TYPE_64BIT => fixed_decode 8 input
  | _ => none

/-- Modelled from the spec: the elements of a packed block, read one after the
other until the block is exhausted; a block that ends inside an element is
MALFORMED. -/
def parse_packed (t : ProtobufCType) : Nat → List Nat → Option (List ProtobufCValue)
  | 0, input => if input.isEmpty then some [] else none
  | fuel + 1, input =>
    if input.isEmpty then some []
    else
      match read_scalar t input with
      | some (bits, rest) =>
        match parse_packed t fuel rest with
        | some vs => some (.num bits :: vs)
        | none => none
      | none => none

/-- The payload of a scanned member: its raw bytes after the length prefix. -/
def ScannedMember.payload (m : ScannedMember) : List Nat :=
  m.data.drop m.length_prefix_len

/-- Modelled from the spec: the string a payload is stored as: "Strings are
always null-terminator-appended in the in-memory record", so the `char *` holds
the characters of the payload up to its first zero byte. -/
def c_string (payload : List Nat) : List Nat :=
  payload.takeWhile (fun c => decide (c ≠ 0))

/-- Modelled from the spec: the record a submessage occurrence is parsed into.
For a non-REPEATED field that already holds a child, occurrences "are merged
recursively", so parsing continues in that child; otherwise a blank child is
initialised. -/
def submessage_start (descs : DescriptorTable) (f : ProtobufCFieldDescriptor)
    (slot : List ProtobufCValue) : MessageRecord :=
  match f.label, slot with
  | PROTOBUF_C_LABEL_REPEATED, _ => protobuf_c_message_init descs f.descriptor
  | _, [.msg old] => old
  | _, _ => protobuf_c_message_init descs f.descriptor

/-- Modelled from the spec: the value a scanned member of the field's own wire
type stands for.  `sub d start payload` unpacks a submessage payload of
descriptor `d` into the record `start`. -/
def parse_member (sub : Ptr → MessageRecord → List Nat → Option MessageRecord)
    (descs : DescriptorTable) (f : ProtobufCFieldDescriptor) (slot : List ProtobufCValue)
    (m : ScannedMember) : Option ProtobufCValue :=
  match f.type with
  | PROTOBUF_C_TYPE_STRING => some (.str (c_string m.payload))
  | PROTOBUF_C_TYPE_BYTES => some (.bin m.payload)
  | PROTOBUF_C_TYPE_MESSAGE =>
    match sub f.descriptor (submessage_start descs f slot) m.payload with
    | some child => some (.msg child)
    | none => none
  | t =>
    match read_scalar t m.data with
    | some (bits, _) => some (.num bits)
    | none => none

/-- Modelled from the spec: "Multiple occurrences of the same tag are
concatenated in arrival order. For non-REPEATED scalar fields, the last
occurrence wins" (and a merged submessage replaces the child it was merged
into). -/
def store_value (f : ProtobufCFieldDescriptor) (slot : List ProtobufCValue)
    (v : ProtobufCValue) : List ProtobufCValue :=
  match f.label with
  | PROTOBUF_C_LABEL_REPEATED => slot ++ [v]
  | _ => [v]

/-- Modelled from the spec: the populate pass for one scanned member.  The
field is looked up by tag.  A member of the field's own wire type is parsed and
stored; a LENGTH_PREFIXED member of a REPEATED field whose type has a packed
form is a packed block, whose elements are appended; with any other wire type,
and with a tag that no field has, the member "is treated as unknown and
preserved verbatim", appended to the unknown fields in arrival order. -/
def apply_member (sub : Ptr → MessageRecord → List Nat → Option MessageRecord)
    (descs : DescriptorTable) (fields : List ProtobufCFieldDescriptor)
    (record : List (List ProtobufCValue) × List ProtobufCMessageUnknownField)
    (m : ScannedMember) :
    Option (List (List ProtobufCValue) × List ProtobufCMessageUnknownField) :=
  match field_index fields m.tag with
  | none =>
    some (record.1, record.2 ++ [{ tag := m.tag, wire_type := m.wire_type, data := m.data }])
  | some i =>
    match fields[i]?, record.1[i]? with
    | some f, some slot =>
      if m.wire_type = wire_type_of f.type then
        match parse_member sub descs f slot m with
        | some v => some (record.1.set i (store_value f slot v), record.2)
        | none => none
      else if m.wire_type = PROTOBUF_C_WIRE_TYPE_LENGTH_PREFIXED ∧
          f.label = PROTOBUF_C_LABEL_REPEATED ∧ has_packed_form f.type = true then
        match parse_packed f.type m.payload.length m.payload with
        | some vs => some (record.1.set i (slot ++ vs), record.2)
        | none => none
      else
        some (record.1,
          record.2 ++ [{ tag := m.tag, wire_type := m.wire_type, data := m.data }])
    | _, _ => none

/-- Modelled from the spec: the populate pass over the scanned members, in
wire order. -/
def populate (sub : Ptr → MessageRecord → List Nat → Option MessageRecord)
    (descs : DescriptorTable) (fields : List ProtobufCFieldDescriptor) :
    List (List ProtobufCValue) × List ProtobufCMessageUnknownField → List ScannedMember →
      Option (List (List ProtobufCValue) × List ProtobufCMessageUnknownField)
  | record, [] => some record
  | record, m :: ms =>
    match apply_member sub descs fields record m with
    | some record2 => populate sub descs fields record2 ms
    | none => none

/-- Modelled from the spec: unpacking the bytes of one message of descriptor
`d` into the record `start`: the scan pass, then the populate pass; `sub` is
the unpacker used for submessages. -/
def unpack_into (sub : Ptr → MessageRecord → List Nat → Option MessageRecord)
    (descs : DescriptorTable) (d : Ptr) (start : MessageRecord) (input : List Nat) :
    Option MessageRecord :=
  match scan_members input.length input with
  | none => none
  | some ms =>
    match populate sub descs (descs d).fields (start.fields, start.unknown_fields) ms with
    | some (slots, unknown) => some (.mk d slots unknown)
    | none => none

/-- Modelled from the spec: unpacking with `depth` levels of submessage
nesting still allowed: "Recursion depth must be bounded by a configurable
limit ...; exceeding it yields MALFORMED". -/
def unpack_at_depth (descs : DescriptorTable) :
    Nat → Ptr → MessageRecord → List Nat → Option MessageRecord
  | 0 => unpack_into (fun _ _ _ => none) descs
  | depth + 1 => unpack_into (unpack_at_depth descs depth) descs

/-- Modelled from the spec: the default of the configurable recursion limit,
"(default 100)". -/
def recursion_limit : Nat := 100

/-- Modelled from the spec: `protobuf_c_message_unpack` (declared on header
lines 370-375) with an allocator that serves every request: the first `len`
bytes of `data` are parsed into a freshly initialised record of the
descriptor; the result is the record, or `none` for the null result that
MALFORMED input gives.  ALLOCATION_FAILED does not arise with such an
allocator. -/
def protobuf_c_message_unpack (descs : DescriptorTable) (d : Ptr) (len : Nat)
    (data : List Nat) : Option MessageRecord :=
  unpack_at_depth descs recursion_limit d (protobuf_c_message_init descs d) (data.take len)

/-! ## Well-formed messages -/

/-- The bit pattern of a numeric, BOOL or ENUM member is one the wire format
carries: 32 bits for the 32-bit types and ENUM, 64 bits for the 64-bit types,
and 0 or 1 for BOOL.  A `protobuf_c_boolean` is an `int` (header line 107), but
pack writes a BOOL as the one byte 0 or 1, so of the values of a BOOL member
only 0 and 1 come back from the wire as they were. -/
def scalar_ok (t : ProtobufCType) (bits : Nat) : Bool :=
  match t with
  | PROTOBUF_C_TYPE_INT32 => decide (bits < 2 ^ 32)
  | PROTOBUF_C_TYPE_SINT32 => decide (bits < 2 ^ 32)
  | PROTOBUF_C_TYPE_SFIXED32 => decide (bits < 2 ^ 32)
  | PROTOBUF_C_TYPE_UINT32 => decide (bits < 2 ^ 32)
  | PROTOBUF_C_TYPE_FIXED32 => decide (bits < 2 ^ 32)
  | PROTOBUF_C_TYPE_FLOAT => decide (bits < 2 ^ 32)
  | PROTOBUF_C_TYPE_ENUM => decide (bits < 2 ^ 32)
  | PROTOBUF_C_TYPE_INT64 => decide (bits < 2 ^ 64)
  | PROTOBUF_C_TYPE_SINT64 => decide (bits < 2 ^ 64)
  | PROTOBUF_C_TYPE_SFIXED64 => decide (bits < 2 ^ 64)
  | PROTOBUF_C_TYPE_UINT64 => decide (bits < 2 ^ 64)
  | PROTOBUF_C_TYPE_FIXED64 => decide (bits < 2 ^ 64)
  | PROTOBUF_C_TYPE_DOUBLE => decide (bits < 2 ^ 64)
  | PROTOBUF_C_TYPE_BOOL => decide (bits < 2)
  | _ => false

/-- The number of values in a slot fits the label: exactly one for REQUIRED
(the field is present), at most one for OPTIONAL, any number for REPEATED. -/
def count_ok (label : ProtobufCLabel) (n : Nat) : Bool :=
  match label with
  | PROTOBUF_C_LABEL_REQUIRED => decide (n = 1)
  | PROTOBUF_C_LABEL_OPTIONAL => decide (n ≤ 1)
  | PROTOBUF_C_LABEL_REPEATED => true

/-- The field is not a REQUIRED MESSAGE field that declares a default.  (`init`
installs the default of a REQUIRED field as its value, and a submessage read
from the wire is merged into the child the field already holds.) -/
def default_ok (f : ProtobufCFieldDescriptor) : Bool :=
  decide (f.label ≠ PROTOBUF_C_LABEL_REQUIRED) || decide (f.type ≠ PROTOBUF_C_TYPE_MESSAGE) ||
    f.default_value.isNone

/-- The invariants of a message descriptor: the magic is right, the field ids
are strictly ascending ("sorted by field-id", "tags are unique"), every id lies
in `1 .. 2^29 - 1`, and no REQUIRED MESSAGE field declares a default. -/
def descriptor_ok (d : ProtobufCMessageDescriptor) : Bool :=
  decide (d.magic = PROTOBUF_C__MESSAGE_DESCRIPTOR_MAGIC) &&
  decide ((d.fields.map (fun f => f.id)).Pairwise (fun a b => a < b)) &&
  d.fields.all (fun f => decide (1 ≤ f.id ∧ f.id ≤ 2 ^ 29 - 1) && default_ok f)

/-- The scan pass or the populate pass would read a member with this tag and
wire type as (part of) a declared field. -/
def accepted_by (fields : List ProtobufCFieldDescriptor) (tag : Nat)
    (w : ProtobufCWireType) : Bool :=
  match field_index fields tag with
  | none => false
  | some i =>
    match fields[i]? with
    | some f =>
      decide (w = wire_type_of f.type) ||
        (decide (w = PROTOBUF_C_WIRE_TYPE_LENGTH_PREFIXED) &&
          decide (f.label = PROTOBUF_C_LABEL_REPEATED) && has_packed_form f.type)
    | none => false

/-- An unknown field is well-formed for a descriptor: its tag lies in
`1 .. 2^29 - 1`, its raw bytes are exactly one value of its wire type (which
is then VARINT, 64BIT, LENGTH_PREFIXED or 32BIT), and it is unknown indeed: no
declared field takes its tag with its wire type. -/
def unknown_ok (fields : List ProtobufCFieldDescriptor)
    (u : ProtobufCMessageUnknownField) : Bool :=
  decide (1 ≤ u.tag ∧ u.tag ≤ 2 ^ 29 - 1) &&
  (match scan_value u.wire_type u.data with
   | some (_, data, rest) => decide (data = u.data) && rest.isEmpty
   | none => false) &&
  !accepted_by fields u.tag u.wire_type

mutual
/-- A value is well-formed for the field that holds it: a numeric member fits
its C type; a string is held by a STRING field, has no zero byte inside and a
length that fits 64 bits; a blob is held by a BYTES field; a child message is
held by a MESSAGE field, is of the descriptor the field names, is itself
well-formed, and has a packed size that fits 64 bits. -/
def value_ok (descs : DescriptorTable) (f : ProtobufCFieldDescriptor) : ProtobufCValue → Bool
  | .num bits => scalar_ok f.type bits
  | .str chars =>
    decide (f.type = PROTOBUF_C_TYPE_STRING) &&
      chars.all (fun c => decide (0 < c ∧ c < 256)) && decide (chars.length < 2 ^ 64)
  | .bin data =>
    decide (f.type = PROTOBUF_C_TYPE_BYTES) &&
      data.all (fun c => decide (c < 256)) && decide (data.length < 2 ^ 64)
  | .msg m =>
    decide (f.type = PROTOBUF_C_TYPE_MESSAGE) && decide (m.descriptor = f.descriptor) &&
      message_ok descs m && decide (protobuf_c_message_get_packed_size descs m < 2 ^ 64)
/-- A message record is well-formed: its descriptor satisfies the descriptor
invariants, it has one well-formed slot per field of the descriptor, and its
unknown fields are well-formed. -/
def message_ok (descs : DescriptorTable) : MessageRecord → Bool
  | .mk d fields unknown =>
    descriptor_ok (descs d) && slots_ok descs (descs d).fields fields &&
      unknown.all (unknown_ok (descs d).fields)
/-- The slots of a record are well-formed for the fields of the descriptor:
as many slots as fields, each with a number of values that fits the label,
well-formed values, and (for a packed field) a payload size that fits 64 bits. -/
def slots_ok (descs : DescriptorTable) :
    List ProtobufCFieldDescriptor → List (List ProtobufCValue) → Bool
  | [], [] => true
  | f :: fs, slot :: slots =>
    count_ok f.label slot.length && values_ok descs f slot &&
      (!is_packed f || decide (elements_size descs f.type slot < 2 ^ 64)) &&
      slots_ok descs fs slots
  | _, _ => false
/-- Every value of a slot is well-formed for the field. -/
def values_ok (descs : DescriptorTable) (f : ProtobufCFieldDescriptor) :
    List ProtobufCValue → Bool
  | [] => true
  | v :: vs => value_ok descs f v && values_ok descs f vs
end

mutual
/-- The nesting depth a value adds: one more than the depth of a child message. -/
def value_depth : ProtobufCValue → Nat
  | .msg m => message_depth m + 1
  | _ => 0
/-- The nesting depth of a message: 0 when it holds no submessage. -/
def message_depth : MessageRecord → Nat
  | .mk _ fields _ => slots_depth fields
/-- The largest nesting depth over the slots of a record. -/
def slots_depth : List (List ProtobufCValue) → Nat
  | [] => 0
  | slot :: slots => max (values_depth slot) (slots_depth slots)
/-- The largest nesting depth over the values of a slot. -/
def values_depth : List ProtobufCValue → Nat
  | [] => 0
  | v :: vs => max (value_depth v) (values_depth vs)
end

/-! ## The members a message is written as -/

/-- The descriptor table of the schema
`message T { required int32 a = 1; optional string b = 2;
repeated int32 nums = 4 [packed=true]; optional sint32 x = 5; optional T child = 6;
repeated double f = 7; }`, with the descriptor of `T` stored at every address. -/
def example_descs : DescriptorTable := fun _ =>
  { magic := PROTOBUF_C__MESSAGE_DESCRIPTOR_MAGIC, name := "T",
    fields :=
      [ { name := "a", id := 1, label := PROTOBUF_C_LABEL_REQUIRED,
          type := PROTOBUF_C_TYPE_INT32, descriptor := NULL, default_value := none,
          flags := 0 },
        { name := "b", id := 2, label := PROTOBUF_C_LABEL_OPTIONAL,
          type := PROTOBUF_C_TYPE_STRING, descriptor := NULL, default_value := none,
          flags := 0 },
        { name := "nums", id := 4, label := PROTOBUF_C_LABEL_REPEATED,
          type := PROTOBUF_C_TYPE_INT32, descriptor := NULL, default_value := none,
          flags := PROTOBUF_C_FIELD_FLAG_PACKED },
        { name := "x", id := 5, label := PROTOBUF_C_LABEL_OPTIONAL,
          type := PROTOBUF_C_TYPE_SINT32, descriptor := NULL, default_value := none,
          flags := 0 },
        { name := "child", id := 6, label := PROTOBUF_C_LABEL_OPTIONAL,
          type := PROTOBUF_C_TYPE_MESSAGE, descriptor := 1, default_value := none,
          flags := 0 },
        { name := "f", id := 7, label := PROTOBUF_C_LABEL_REPEATED,
          type := PROTOBUF_C_TYPE_DOUBLE, descriptor := NULL, default_value := none,
          flags := 0 } ] }

/-- The descriptor table of the schema `message S { required int32 a = 1; }`,
with the descriptor of `S` stored at every address. -/
def single_field_descs : DescriptorTable := fun _ =>
  { magic := PROTOBUF_C__MESSAGE_DESCRIPTOR_MAGIC, name := "S",
    fields :=
      [ { name := "a", id := 1, label := PROTOBUF_C_LABEL_REQUIRED,
          type := PROTOBUF_C_TYPE_INT32, descriptor := NULL, default_value := none,
          flags := 0 } ] }

/-- The descriptor table of the schema `message B { required bool flag = 1; }`,
with the descriptor of `B` stored at every address. -/
def bool_field_descs : DescriptorTable := fun _ =>
  { magic := PROTOBUF_C__MESSAGE_DESCRIPTOR_MAGIC, name := "B",
    fields :=
      [ { name := "flag", id := 1, label := PROTOBUF_C_LABEL_REQUIRED,
          type := PROTOBUF_C_TYPE_BOOL, descriptor := NULL, default_value := none,
          flags := 0 } ] }

/-! # Theorems -/

/-- C3: the `ProtobufCWireType` enumerators have the values VARINT=0, 64BIT=1,
LENGTH_PREFIXED=2, START_GROUP=3, END_GROUP=4, 32BIT=5; the group wire types
are exactly the ones valued 3 and 4; every declared wire type is below 8 and
is unchanged by `& 7`; 6 and 7 are the only values in 0..7 that no enumerator
has; the key of tag 4 with LENGTH_PREFIXED is 0x22 and the key of tag 1 with
VARINT is 0x08. -/
theorem wire_type_values :
    PROTOBUF_C_WIRE_TYPE_VARINT.value = 0 ∧
    PROTOBUF_C_WIRE_TYPE_64BIT.value = 1 ∧
    PROTOBUF_C_WIRE_TYPE_LENGTH_PREFIXED.value = 2 ∧
    PROTOBUF_C_WIRE_TYPE_START_GROUP.value = 3 ∧
    PROTOBUF_C_WIRE_TYPE_END_GROUP.value = 4 ∧
    PROTOBUF_C_WIRE_TYPE_32BIT.value = 5 ∧
    (∀ w : ProtobufCWireType,
      (w = PROTOBUF_C_WIRE_TYPE_START_GROUP ∨ w = PROTOBUF_C_WIRE_TYPE_END_GROUP) ↔
        (w.value = 3 ∨ w.value = 4)) ∧
    (∀ w : ProtobufCWireType, w.value < 8 ∧ key_wire_type w.value = w.value) ∧
    (List.range 8).filter (fun n => decide (∀ w : ProtobufCWireType, w.value ≠ n)) = [6, 7] ∧
    (∀ w : ProtobufCWireType, ProtobufCWireType.of_value w.value = some w) ∧
    ProtobufCWireType.of_value 6 = none ∧ ProtobufCWireType.of_value 7 = none ∧
    wire_key 4 PROTOBUF_C_WIRE_TYPE_LENGTH_PREFIXED = 0x22 ∧
    wire_key 1 PROTOBUF_C_WIRE_TYPE_VARINT = 0x08 := by
  refine ⟨rfl, rfl, rfl, rfl, rfl, rfl, ?_, ?_, ?_, ?_, rfl, rfl, ?_, ?_⟩
  · intro w; cases w <;> simp [ProtobufCWireType.value]
  · intro w; cases w <;> decide
  · decide
  · intro w; cases w <;> rfl
  · decide
  · decide

/-- C5: the descriptor magic numbers are 0x114315af (enum), 0x28aaeef9
(message) and 0x14159bc3 (service); they are pairwise distinct, so whatever
magic word a descriptor carries, at most one of the three magic checks
accepts it. -/
theorem descriptor_magic_distinct :
    PROTOBUF_C__ENUM_DESCRIPTOR_MAGIC = 0x114315af ∧
    PROTOBUF_C__MESSAGE_DESCRIPTOR_MAGIC = 0x28aaeef9 ∧
    PROTOBUF_C__SERVICE_DESCRIPTOR_MAGIC = 0x14159bc3 ∧
    PROTOBUF_C__ENUM_DESCRIPTOR_MAGIC ≠ PROTOBUF_C__MESSAGE_DESCRIPTOR_MAGIC ∧
    PROTOBUF_C__ENUM_DESCRIPTOR_MAGIC ≠ PROTOBUF_C__SERVICE_DESCRIPTOR_MAGIC ∧
    PROTOBUF_C__MESSAGE_DESCRIPTOR_MAGIC ≠ PROTOBUF_C__SERVICE_DESCRIPTOR_MAGIC ∧
    (∀ magic : Nat,
      (if magic = PROTOBUF_C__ENUM_DESCRIPTOR_MAGIC then 1 else 0) +
      (if magic = PROTOBUF_C__MESSAGE_DESCRIPTOR_MAGIC then 1 else 0) +
      (if magic = PROTOBUF_C__SERVICE_DESCRIPTOR_MAGIC then 1 else 0) ≤ 1) := by
  refine ⟨rfl, rfl, rfl, by decide, by decide, by decide, ?_⟩
  intro magic
  simp only [PROTOBUF_C__ENUM_DESCRIPTOR_MAGIC, PROTOBUF_C__MESSAGE_DESCRIPTOR_MAGIC,
    PROTOBUF_C__SERVICE_DESCRIPTOR_MAGIC]
  split_ifs <;> omega

/-- C6 as stated fails: the declared field types are not 16 in number, and
the types other than ENUM and MESSAGE are not 14. -/
theorem field_type_count_not_16 :
    ¬ (Fintype.card ProtobufCType = 16 ∧
       (ProtobufCType.enumerators.filter ProtobufCType.is_scalar).length = 14) := by
  decide

/-- C6 amended: `ProtobufCType` has exactly 17 enumerators, namely 15 scalar
types together with ENUM and MESSAGE; the list of enumerators is complete and
free of repetitions. -/
theorem field_type_count :
    Fintype.card ProtobufCType = 17 ∧
    ProtobufCType.enumerators.length = 17 ∧
    ProtobufCType.enumerators.Nodup ∧
    (∀ t : ProtobufCType, t ∈ ProtobufCType.enumerators) ∧
    (ProtobufCType.enumerators.filter ProtobufCType.is_scalar).length = 15 ∧
    (ProtobufCType.enumerators.filter (fun t => !t.is_scalar)) =
      [PROTOBUF_C_TYPE_ENUM, PROTOBUF_C_TYPE_MESSAGE] := by
  refine ⟨by decide, by decide, by decide, ?_, by decide, by decide⟩
  intro t; cases t <;> decide

/-- C7: the wire-type table is a total, unambiguous function on
`ProtobufCType`: the table has four rows, every enumerator is listed in
exactly one row and once in it, so each type has exactly one accepted
non-packed wire type; that wire type is one of VARINT, 32BIT, 64BIT,
LENGTH_PREFIXED and never START_GROUP or END_GROUP. -/
theorem wire_type_table_total :
    wire_type_table.length = 4 ∧
    ∀ t : ProtobufCType,
      (rows_of t).length = 1 ∧
      ((rows_of t).map (fun row => row.1.count t)) = [1] ∧
      accepted_wire_types t = [wire_type_of t] ∧
      (wire_type_of t = PROTOBUF_C_WIRE_TYPE_VARINT ∨
       wire_type_of t = PROTOBUF_C_WIRE_TYPE_32BIT ∨
       wire_type_of t = PROTOBUF_C_WIRE_TYPE_64BIT ∨
       wire_type_of t = PROTOBUF_C_WIRE_TYPE_LENGTH_PREFIXED) ∧
      wire_type_of t ≠ PROTOBUF_C_WIRE_TYPE_START_GROUP ∧
      wire_type_of t ≠ PROTOBUF_C_WIRE_TYPE_END_GROUP := by
  refine ⟨rfl, ?_⟩
  intro t; cases t <;> decide

/-- C9: for every descriptor pointer `d`, the header `PROTOBUF_C_MESSAGE_INIT(d)`
has `descriptor = d`, `n_unknown_fields = 0` and `unknown_fields = NULL`. -/
theorem message_init_header (d : Ptr) :
    (PROTOBUF_C_MESSAGE_INIT d).descriptor = d ∧
    (PROTOBUF_C_MESSAGE_INIT d).n_unknown_fields = 0 ∧
    (PROTOBUF_C_MESSAGE_INIT d).unknown_fields = NULL :=
  ⟨rfl, rfl, rfl⟩

/-- What `PROTOBUF_C_BUFFER_SIMPLE_CLEAR` does, for every buffer: `free` is
called once when `must_free_data` is non-zero and not at all when it is zero,
and the call gets the address of the default allocator and `data`. -/
theorem buffer_simple_clear_calls (allocator_data addr : Ptr) (b : ProtobufCBufferSimple) :
    PROTOBUF_C_BUFFER_SIMPLE_CLEAR (recording_allocator allocator_data) addr b [] =
      if b.must_free_data ≠ 0 then [(addr, b.data)] else [] := by
  unfold PROTOBUF_C_BUFFER_SIMPLE_CLEAR recording_allocator
  split_ifs <;> simp

/-- A buffer made by `PROTOBUF_C_BUFFER_SIMPLE_INIT` has `len = 0` and
`must_free_data = 0`, and clearing it calls `free` not at all. -/
theorem buffer_simple_init_never_freed (allocator_data addr append array size : Nat) :
    (PROTOBUF_C_BUFFER_SIMPLE_INIT append array size).len = 0 ∧
    (PROTOBUF_C_BUFFER_SIMPLE_INIT append array size).must_free_data = 0 ∧
    PROTOBUF_C_BUFFER_SIMPLE_CLEAR (recording_allocator allocator_data) addr
      (PROTOBUF_C_BUFFER_SIMPLE_INIT append array size) [] = [] :=
  ⟨rfl, rfl, rfl⟩

/-- C10 at the failing input: the default allocator lives at address 1000 and
its `allocator_data` is 2000; clearing a buffer with `must_free_data = 1` and
`data = 3000` calls `free` once, with first argument 1000 (the address of the
allocator), not 2000 (its `allocator_data`). -/
theorem buffer_simple_clear_passes_allocator_address :
    PROTOBUF_C_BUFFER_SIMPLE_CLEAR (recording_allocator 2000) 1000
      { base := 1, alloced := 16, len := 4, data := 3000, must_free_data := 1 } [] =
      [(1000, 3000)] ∧
    PROTOBUF_C_BUFFER_SIMPLE_CLEAR (recording_allocator 2000) 1000
      { base := 1, alloced := 16, len := 4, data := 3000, must_free_data := 1 } [] ≠
      [((recording_allocator 2000).allocator_data, 3000)] := by
  decide

/-- C4: for every tag `t` with `1 ≤ t ≤ 2^29 - 1` and every declared wire type
`w`, the key `(t << 3) | w` is below `2^32`, so the 32-bit computation does not
overflow; the key decomposes into `key >> 3 = t` and `key & 7 = w`; and keys of
distinct (tag, wire type) pairs are distinct. -/
theorem wire_key_decompose (t : Nat) (w : ProtobufCWireType) (h1 : 1 ≤ t)
    (h2 : t ≤ 2 ^ 29 - 1) :
    (t <<< 3 ||| w.value) < 2 ^ 32 ∧
    wire_key t w = (t <<< 3 ||| w.value) ∧
    key_tag (wire_key t w) = t ∧
    key_wire_type (wire_key t w) = w.value ∧
    ProtobufCWireType.of_value (key_wire_type (wire_key t w)) = some w ∧
    (∀ (t2 : Nat) (w2 : ProtobufCWireType), 1 ≤ t2 → t2 ≤ 2 ^ 29 - 1 →
      wire_key t w = wire_key t2 w2 → t = t2 ∧ w = w2) := by
  have hw : ∀ x : ProtobufCWireType, x.value < 8 := by intro x; cases x <;> decide
  have hor : ∀ (a : Nat) (x : ProtobufCWireType), (a <<< 3 ||| x.value) = 8 * a + x.value := by
    intro a x
    rw [Nat.shiftLeft_eq, Nat.mul_comm a]
    exact (Nat.mul_add_lt_is_or (i := 3) (hw x) a).symm
  have hkey : ∀ (a : Nat) (x : ProtobufCWireType), a ≤ 2 ^ 29 - 1 →
      wire_key a x = 8 * a + x.value := by
    intro a x ha
    unfold wire_key
    rw [hor]
    have := hw x
    apply Nat.mod_eq_of_lt
    norm_num at ha ⊢
    omega
  have hinj : ∀ x y : ProtobufCWireType, x.value = y.value → x = y := by
    intro x y; cases x <;> cases y <;> simp [ProtobufCWireType.value]
  have hwv := hw w
  refine ⟨?_, ?_, ?_, ?_, ?_, ?_⟩
  · rw [hor]; norm_num at h2 ⊢; omega
  · rw [hkey t w h2, hor]
  · rw [hkey t w h2]; unfold key_tag; rw [Nat.shiftRight_eq_div_pow]; norm_num; omega
  · rw [hkey t w h2]; unfold key_wire_type
    rw [show (7 : Nat) = 2 ^ 3 - 1 by norm_num, Nat.and_pow_two_sub_one_eq_mod]
    norm_num; omega
  · rw [hkey t w h2]; unfold key_wire_type
    rw [show (7 : Nat) = 2 ^ 3 - 1 by norm_num, Nat.and_pow_two_sub_one_eq_mod]
    have : (8 * t + w.value) % 2 ^ 3 = w.value := by norm_num; omega
    rw [this]; cases w <;> rfl
  · intro t2 w2 _ h4 heq
    rw [hkey t w h2, hkey t2 w2 h4] at heq
    have := hw w2
    have hv : w.value = w2.value := by omega
    exact ⟨by omega, hinj w w2 hv⟩

/-- C4 at a concrete input: tag 4 with LENGTH_PREFIXED. -/
theorem wire_key_decompose_witness :
    (1 ≤ 4 ∧ 4 ≤ 2 ^ 29 - 1) ∧
    key_tag (wire_key 4 PROTOBUF_C_WIRE_TYPE_LENGTH_PREFIXED) = 4 ∧
    key_wire_type (wire_key 4 PROTOBUF_C_WIRE_TYPE_LENGTH_PREFIXED) = 2 :=
  ⟨by decide,
   (wire_key_decompose 4 PROTOBUF_C_WIRE_TYPE_LENGTH_PREFIXED (by decide) (by decide)).2.2.1,
   (wire_key_decompose 4 PROTOBUF_C_WIRE_TYPE_LENGTH_PREFIXED (by decide) (by decide)).2.2.2.1⟩

/-! ## Int-range lookup -/

theorem int_range_scan_none (key : Int) :
    ∀ (L : List ProtobufCIntRange),
      (∀ k, k + 1 < L.length → range_holds (range_at L k) (range_at L (k + 1)) key = false) →
      int_range_scan L key = -1 := by
  intro L
  induction L with
  | nil => intro _; rfl
  | cons r rest ih =>
    cases rest with
    | nil => intro _; rfl
    | cons next rest =>
      intro hk
      have h0 := hk 0 (by simp)
      simp only [range_at, List.getD_cons_zero, List.getD_cons_succ, zero_add] at h0
      simp only [int_range_scan, h0]
      apply ih
      intro k hk2
      have := hk (k + 1) (by simpa using hk2)
      simpa [range_at] using this

theorem int_range_scan_some (key : Int) :
    ∀ (L : List ProtobufCIntRange) (i : Nat), i + 1 < L.length →
      range_holds (range_at L i) (range_at L (i + 1)) key = true →
      ∃ k, k + 1 < L.length ∧ range_holds (range_at L k) (range_at L (k + 1)) key = true ∧
        int_range_scan L key =
          to_int (((range_at L k).orig_index : Int) + (key - (range_at L k).start_value)) := by
  intro L
  induction L with
  | nil => intro i hi; simp at hi
  | cons r rest ih =>
    cases rest with
    | nil => intro i hi; simp at hi
    | cons next rest =>
      intro i hi hc
      by_cases h0 : range_holds r next key = true
      · refine ⟨0, by simp, ?_, ?_⟩
        · simpa [range_at] using h0
        · simp only [int_range_scan, h0, if_true, range_at, List.getD_cons_zero]
      · cases i with
        | zero =>
          simp only [range_at, List.getD_cons_zero, List.getD_cons_succ, zero_add] at hc
          exact absurd hc h0
        | succ i =>
          obtain ⟨k, hk, hkc, hks⟩ := ih i (by simpa using hi) (by simpa [range_at] using hc)
          refine ⟨k + 1, by simpa using hk, by simpa [range_at] using hkc, ?_⟩
          simp only [int_range_scan, h0]
          simpa [range_at] using hks

theorem exists_range_of_index (f : Nat → Nat) (j : Nat) :
    ∀ n : Nat, f 0 ≤ j → j < f n → ∃ i, i < n ∧ f i ≤ j ∧ j < f (i + 1) := by
  intro n
  induction n with
  | zero => intro h0 hn; omega
  | succ n ih =>
    intro h0 hn
    by_cases h : j < f n
    · obtain ⟨i, hi, h1, h2⟩ := ih h0 h
      exact ⟨i, by omega, h1, h2⟩
    · exact ⟨n, by omega, by omega, hn⟩

theorem to_int_of_index (j : Nat) (h : j < 2 ^ 31) : to_int (j : Int) = (j : Int) := by
  unfold to_int
  have h2 : (j : Int) < 2147483648 := by
    have : j < 2147483648 := by simpa using h
    exact_mod_cast this
  norm_num
  omega

/-- The result of `to_int` is a value of type `int`. -/
theorem to_int_range (x : Int) : -2 ^ 31 ≤ to_int x ∧ to_int x < 2 ^ 31 := by
  unfold to_int
  have h1 := Int.emod_nonneg (x + 2 ^ 31) (show (2 : Int) ^ 32 ≠ 0 by norm_num)
  have h2 := Int.emod_lt_of_pos (x + 2 ^ 31) (show (0 : Int) < 2 ^ 32 by norm_num)
  constructor <;> omega

/-- Whatever the ranges and the key, the lookup returns a value of type `int`. -/
theorem int_range_scan_is_int (key : Int) :
    ∀ L : List ProtobufCIntRange,
      -2 ^ 31 ≤ int_range_scan L key ∧ int_range_scan L key < 2 ^ 31 := by
  intro L
  induction L with
  | nil => simp [int_range_scan]
  | cons r rest ih =>
    cases rest with
    | nil => simp [int_range_scan]
    | cons next rest =>
      simp only [int_range_scan]
      split
      · exact to_int_range _
      · exact ih

theorem layout_value_at (values : List Int) (n_ranges : Nat) (ranges : List ProtobufCIntRange)
    (hl : IntRangeLayout values n_ranges ranges) (i j : Nat) (hi : i < n_ranges)
    (h1 : (range_at ranges i).orig_index ≤ j) (h2 : j < (range_at ranges (i + 1)).orig_index) :
    values[j]? = some ((range_at ranges i).start_value +
        ((j - (range_at ranges i).orig_index : Nat) : Int)) := by
  obtain ⟨_, _, _, _, hcov, _⟩ := hl
  refine (hcov i (List.mem_range.mpr hi)).2 j ?_
  rw [List.mem_range']
  exact ⟨j - (range_at ranges i).orig_index, by omega, by omega⟩

/-- In a laid-out index the `orig_index`es ascend up to the sentinel's, the
number of values. -/
theorem layout_orig_index_le (values : List Int) (n_ranges : Nat)
    (ranges : List ProtobufCIntRange) (hl : IntRangeLayout values n_ranges ranges) :
    ∀ d i : Nat, i + d = n_ranges → (range_at ranges i).orig_index ≤ values.length := by
  obtain ⟨_, _, _, hn, hcov, _⟩ := hl
  intro d
  induction d with
  | zero => intro i hi; simp only [add_zero] at hi; subst hi; omega
  | succ d ih =>
    intro i hi
    have h1 := (hcov i (List.mem_range.mpr (by omega))).1
    have h2 := ih (i + 1) (by omega)
    omega

/-- In a laid-out index over fewer than 2^32 values the size of a range is the
next element's `orig_index` minus its own. -/
theorem layout_range_size (values : List Int) (n_ranges : Nat)
    (ranges : List ProtobufCIntRange) (hl : IntRangeLayout values n_ranges ranges)
    (hlen : values.length < 2 ^ 32) (i : Nat) (hi : i < n_ranges) :
    range_size (range_at ranges i) (range_at ranges (i + 1)) =
      (range_at ranges (i + 1)).orig_index - (range_at ranges i).orig_index := by
  have h1 := (hl.2.2.2.2.1 i (List.mem_range.mpr hi)).1
  have h2 := layout_orig_index_le values n_ranges ranges hl (n_ranges - (i + 1)) (i + 1)
    (by omega)
  unfold range_size
  have h3 : (range_at ranges (i + 1)).orig_index + 2 ^ 32 - (range_at ranges i).orig_index =
      ((range_at ranges (i + 1)).orig_index - (range_at ranges i).orig_index) + 2 ^ 32 := by
    omega
  rw [h3, Nat.add_mod_right]
  apply Nat.mod_eq_of_lt
  omega

/-- In a laid-out index a key that a range holds is the array element at the
index the lookup computes for it. -/
theorem layout_holds_value (values : List Int) (n_ranges : Nat)
    (ranges : List ProtobufCIntRange) (hl : IntRangeLayout values n_ranges ranges)
    (hlen : values.length < 2 ^ 32) (i : Nat) (hi : i < n_ranges) (key : Int)
    (hc : range_holds (range_at ranges i) (range_at ranges (i + 1)) key = true) :
    ∃ j : Nat, values[j]? = some key ∧
      ((range_at ranges i).orig_index : Int) + (key - (range_at ranges i).start_value) =
        (j : Int) := by
  unfold range_holds at hc
  rw [layout_range_size values n_ranges ranges hl hlen i hi] at hc
  simp only [Bool.and_eq_true, decide_eq_true_eq] at hc
  obtain ⟨hc1, hc2⟩ := hc
  have hmono := (hl.2.2.2.2.1 i (List.mem_range.mpr hi)).1
  refine ⟨(range_at ranges i).orig_index + (key - (range_at ranges i).start_value).toNat, ?_, ?_⟩
  · have := layout_value_at values n_ranges ranges hl i
      ((range_at ranges i).orig_index + (key - (range_at ranges i).start_value).toNat) hi
      (by omega) (by omega)
    rw [this]
    congr 1
    omega
  · omega

/-- In a laid-out index every array element is held by a range. -/
theorem layout_value_holds (values : List Int) (n_ranges : Nat)
    (ranges : List ProtobufCIntRange) (hl : IntRangeLayout values n_ranges ranges)
    (hlen : values.length < 2 ^ 32) (j : Nat) (hj : j < values.length) :
    ∃ i, i < n_ranges ∧
      range_holds (range_at ranges i) (range_at ranges (i + 1)) values[j] = true := by
  obtain ⟨i, hi, h1, h2⟩ := exists_range_of_index (fun i => (range_at ranges i).orig_index) j
    n_ranges (by simp [hl.2.2.1]) (by simpa [hl.2.2.2.1] using hj)
  have hv := layout_value_at values n_ranges ranges hl i j hi h1 h2
  rw [List.getElem?_eq_getElem hj] at hv
  have hv2 : values[j] = (range_at ranges i).start_value +
      ((j - (range_at ranges i).orig_index : Nat) : Int) := by simpa using hv
  refine ⟨i, hi, ?_⟩
  unfold range_holds
  rw [layout_range_size values n_ranges ranges hl hlen i hi, hv2]
  simp only [Bool.and_eq_true, decide_eq_true_eq]
  constructor <;> omega

/-- A strictly ascending array holds a value at one index only. -/
theorem ascending_index_unique (values : List Int)
    (hs : values.Pairwise (fun a b => a < b)) (key : Int) (j k : Nat)
    (hj : values[j]? = some key) (hk : values[k]? = some key) : j = k := by
  rw [List.pairwise_iff_getElem] at hs
  obtain ⟨hj1, hj2⟩ := List.getElem?_eq_some_iff.mp hj
  obtain ⟨hk1, hk2⟩ := List.getElem?_eq_some_iff.mp hk
  by_contra hne
  rcases Nat.lt_or_gt_of_ne hne with h | h
  · have := hs j k hj1 hk1 h
    omega
  · have := hs k j hk1 hj1 h
    omega

/-- In a laid-out index, a key that a range holds is below the `start_value` of
the next range when that range is not empty: the range the lookup locates is
one "whose `start_value ≤ key < next.start_value`". -/
theorem range_holds_below_next_start (values : List Int) (n_ranges : Nat)
    (ranges : List ProtobufCIntRange) (hl : IntRangeLayout values n_ranges ranges)
    (hlen : values.length < 2 ^ 32) (i : Nat) (hi : i + 1 < n_ranges)
    (hne : (range_at ranges (i + 1)).orig_index < (range_at ranges (i + 2)).orig_index)
    (key : Int)
    (hc : range_holds (range_at ranges i) (range_at ranges (i + 1)) key = true) :
    (range_at ranges i).start_value ≤ key ∧ key < (range_at ranges (i + 1)).start_value := by
  have hc0 := hc
  unfold range_holds at hc
  rw [layout_range_size values n_ranges ranges hl hlen i (by omega)] at hc
  simp only [Bool.and_eq_true, decide_eq_true_eq] at hc
  obtain ⟨hc1, hc2⟩ := hc
  refine ⟨hc1, ?_⟩
  have hmono := (hl.2.2.2.2.1 i (List.mem_range.mpr (by omega))).1
  have hv := layout_value_at values n_ranges ranges hl i
    ((range_at ranges i).orig_index + (key - (range_at ranges i).start_value).toNat)
    (by omega) (by omega) (by omega)
  have hn := layout_value_at values n_ranges ranges hl (i + 1)
    (range_at ranges (i + 1)).orig_index hi (le_refl _) hne
  have hs := hl.1
  rw [List.pairwise_iff_getElem] at hs
  obtain ⟨hv1, hv2⟩ := List.getElem?_eq_some_iff.mp hv
  obtain ⟨hn1, hn2⟩ := List.getElem?_eq_some_iff.mp hn
  have := hs _ _ hv1 hn1 (by omega)
  rw [hv2, hn2] at this
  simp only [Nat.sub_self, Nat.cast_zero, add_zero] at this
  omega

/-- C8 amended: for every int-range index laid out as the header requires over
a strictly ascending array of at most 2^31 values, the lookup, which locates the
range that holds the key (`start_value ≤ key < start_value + length`, the length
being the next element's `orig_index` minus the range's own) and returns
`orig_index + (key - start_value)` as an `int`, returns the index of the array
element equal to the key when the key is in the array, and returns -1 when the
key is not in the array; and a key held by a range that is followed by a
non-empty range satisfies the spec's `start_value ≤ key < next.start_value`. -/
theorem int_ranges_lookup_correct (values : List Int) (n_ranges : Nat)
    (ranges : List ProtobufCIntRange)
    (hl : IntRangeLayout values n_ranges ranges)
    (hlen : values.length ≤ 2 ^ 31) :
    (∀ (j : Nat) (key : Int), values[j]? = some key →
      protobuf_c_int_ranges_lookup n_ranges ranges key = (j : Int)) ∧
    (∀ key : Int, key ∉ values →
      protobuf_c_int_ranges_lookup n_ranges ranges key = -1) ∧
    (∀ (i : Nat) (key : Int), i + 1 < n_ranges →
      (range_at ranges (i + 1)).orig_index < (range_at ranges (i + 2)).orig_index →
      range_holds (range_at ranges i) (range_at ranges (i + 1)) key = true →
      (range_at ranges i).start_value ≤ key ∧ key < (range_at ranges (i + 1)).start_value) := by
  have hlen2 : values.length < 2 ^ 32 := by
    have : (2 : Nat) ^ 31 < 2 ^ 32 := by norm_num
    omega
  refine ⟨?_, ?_, fun i key hi hne hc =>
    range_holds_below_next_start values n_ranges ranges hl hlen2 i hi hne key hc⟩
  · have htake : ranges.take (n_ranges + 1) = ranges :=
      List.take_of_length_le (by have := hl.2.1; omega)
    have hrl := hl.2.1
    intro j key hj
    obtain ⟨hj1, hj2⟩ := List.getElem?_eq_some_iff.mp hj
    obtain ⟨i, hi, hc⟩ := layout_value_holds values n_ranges ranges hl hlen2 j hj1
    rw [hj2] at hc
    obtain ⟨k, hk, hkc, hks⟩ := int_range_scan_some key ranges i (by omega) hc
    obtain ⟨j2, hj3, hj4⟩ := layout_holds_value values n_ranges ranges hl hlen2 k (by omega)
      key hkc
    have := ascending_index_unique values hl.1 key j j2 hj hj3
    subst this
    unfold protobuf_c_int_ranges_lookup
    rw [htake, hks, hj4]
    exact to_int_of_index j (by omega)
  · have htake : ranges.take (n_ranges + 1) = ranges :=
      List.take_of_length_le (by have := hl.2.1; omega)
    have hrl := hl.2.1
    intro key hkey
    unfold protobuf_c_int_ranges_lookup
    rw [htake]
    apply int_range_scan_none
    intro k hk
    by_contra hc
    have hc2 : range_holds (range_at ranges k) (range_at ranges (k + 1)) key = true := by
      simpa using hc
    obtain ⟨j2, hj3, _⟩ := layout_holds_value values n_ranges ranges hl hlen2 k (by omega)
      key hc2
    exact hkey (List.getElem?_mem hj3)

/-- C8 amended, at concrete indexes over the array 1, 2, 10 with the ranges
(1, 0), (10, 2): with the sentinel (11, 3) the key 10 is found at index 2 and the
keys 0 and 5, which are not in the array, give -1; with the sentinel (0, 3),
whose `start_value` is below the values, the key 10 is found at index 2 too. -/
theorem int_ranges_lookup_correct_witness :
    IntRangeLayout [1, 2, 10] 2 [⟨1, 0⟩, ⟨10, 2⟩, ⟨11, 3⟩] ∧
    [1, 2, (10 : Int)].length ≤ 2 ^ 31 ∧
    protobuf_c_int_ranges_lookup 2 [⟨1, 0⟩, ⟨10, 2⟩, ⟨11, 3⟩] 10 = 2 ∧
    protobuf_c_int_ranges_lookup 2 [⟨1, 0⟩, ⟨10, 2⟩, ⟨11, 3⟩] 0 = -1 ∧
    protobuf_c_int_ranges_lookup 2 [⟨1, 0⟩, ⟨10, 2⟩, ⟨11, 3⟩] 5 = -1 ∧
    IntRangeLayout [1, 2, 10] 2 [⟨1, 0⟩, ⟨10, 2⟩, ⟨0, 3⟩] ∧
    protobuf_c_int_ranges_lookup 2 [⟨1, 0⟩, ⟨10, 2⟩, ⟨0, 3⟩] 10 = 2 :=
  ⟨by decide, by decide,
   (int_ranges_lookup_correct [1, 2, 10] 2 [⟨1, 0⟩, ⟨10, 2⟩, ⟨11, 3⟩] (by decide)
      (by decide)).1 2 10 (by decide),
   (int_ranges_lookup_correct [1, 2, 10] 2 [⟨1, 0⟩, ⟨10, 2⟩, ⟨11, 3⟩] (by decide)
      (by decide)).2.1 0 (by decide),
   (int_ranges_lookup_correct [1, 2, 10] 2 [⟨1, 0⟩, ⟨10, 2⟩, ⟨11, 3⟩] (by decide)
      (by decide)).2.1 5 (by decide),
   by decide,
   (int_ranges_lookup_correct [1, 2, 10] 2 [⟨1, 0⟩, ⟨10, 2⟩, ⟨0, 3⟩] (by decide)
      (by decide)).1 2 10 (by decide)⟩

theorem consecutive_values_length (n : Nat) : (consecutive_values n).length = n := by
  simp [consecutive_values]

theorem consecutive_values_getElem? (n j : Nat) (h : j < n) :
    (consecutive_values n)[j]? = some ((j : Int) - 2 ^ 31) := by
  unfold consecutive_values
  rw [List.getElem?_map, List.getElem?_range h]
  rfl

/-- The index `consecutive_ranges n` over `consecutive_values n` is laid out as
the header requires, whatever the number of values. -/
theorem consecutive_layout (n : Nat) :
    IntRangeLayout (consecutive_values n) 1 (consecutive_ranges n) := by
  refine ⟨?_, rfl, rfl, ?_, ?_, ?_⟩
  · unfold consecutive_values
    rw [List.pairwise_map]
    refine List.Pairwise.imp ?_ (List.pairwise_lt_range n)
    intro a b hab
    omega
  · rw [consecutive_values_length]; rfl
  · intro i hi
    have hi0 : i = 0 := by simpa using hi
    subst hi0
    refine ⟨Nat.zero_le _, ?_⟩
    intro j hj
    have hj2 : j < n := by
      rw [List.mem_range'] at hj
      obtain ⟨k, hk, rfl⟩ := hj
      change k < n - 0 at hk
      change 0 + 1 * k < n
      omega
    rw [consecutive_values_getElem? n j hj2]
    change some ((j : Int) - 2 ^ 31) = some (-2 ^ 31 + ((j - 0 : Nat) : Int))
    exact congrArg some (by omega)
  · intro i hi
    simp at hi

/-- Every element of `consecutive_values n` is a value of type `int` when there
are at most 2^32 of them. -/
theorem consecutive_values_are_int (n : Nat) (hn : n ≤ 2 ^ 32) :
    ∀ v ∈ consecutive_values n, -2 ^ 31 ≤ v ∧ v < 2 ^ 31 := by
  intro v hv
  unfold consecutive_values at hv
  rw [List.mem_map] at hv
  obtain ⟨i, hi, rfl⟩ := hv
  rw [List.mem_range] at hi
  have h2 : (i : Int) < 2 ^ 32 := by
    have : i < 2 ^ 32 := by omega
    exact_mod_cast this
  constructor <;> omega

/-- C8 as stated fails.  Over the 2^31 + 1 consecutive `int` values from
`INT_MIN = -2^31` to 0, indexed by one range and the sentinel as the header
requires, the key 0 is the array element of index 2^31, which the lookup, whose
result is an `int`, cannot return: it returns `-2^31`. -/
theorem int_ranges_lookup_index_counterexample :
    IntRangeLayout (consecutive_values (2 ^ 31 + 1)) 1 (consecutive_ranges (2 ^ 31 + 1)) ∧
    (∀ v ∈ consecutive_values (2 ^ 31 + 1), -2 ^ 31 ≤ v ∧ v < 2 ^ 31) ∧
    (consecutive_values (2 ^ 31 + 1))[2 ^ 31]? = some 0 ∧
    protobuf_c_int_ranges_lookup 1 (consecutive_ranges (2 ^ 31 + 1)) 0 = -2 ^ 31 ∧
    protobuf_c_int_ranges_lookup 1 (consecutive_ranges (2 ^ 31 + 1)) 0 ≠ ((2 ^ 31 : Nat) : Int) := by
  have hlook : protobuf_c_int_ranges_lookup 1 (consecutive_ranges (2 ^ 31 + 1)) 0 = -2 ^ 31 := by
    decide
  refine ⟨consecutive_layout _, consecutive_values_are_int _ (by norm_num), ?_, hlook, ?_⟩
  · rw [consecutive_values_getElem? _ _ (by norm_num)]
    norm_num
  · rw [hlook]
    norm_num


/-! ## The varint codec -/

theorem varint_encode_loop_length (fuel : Nat) :
    ∀ k v : Nat, k < fuel → (128 ^ k ≤ v ∨ k = 0) → v < 128 ^ (k + 1) →
      (varint_encode_loop fuel v).length = k + 1 := by
  induction fuel with
  | zero => intro k v hk; omega
  | succ n ih =>
    intro k v hk hlo hhi
    unfold varint_encode_loop
    by_cases hv : v < 128
    · rw [if_pos hv]
      have : k = 0 := by
        rcases hlo with h | h
        · by_contra hne
          have : 128 ^ 1 ≤ 128 ^ k := Nat.pow_le_pow_right (by norm_num) (by omega)
          omega
        · exact h
      subst this; rfl
    · rw [if_neg hv]
      cases k with
      | zero => simp at hhi; omega
      | succ k =>
        have h1 : 128 ^ k ≤ v / 128 := by
          rcases hlo with h | h
          · rw [Nat.le_div_iff_mul_le (by norm_num)]
            rw [pow_succ] at h; exact h
          · omega
        have h2 : v / 128 < 128 ^ (k + 1) := by
          rw [Nat.div_lt_iff_lt_mul (by norm_num)]
          rw [pow_succ] at hhi; exact hhi
        simp [ih k (v / 128) (by omega) (Or.inl h1) h2]

theorem varint_encode_length (v : Nat) : (varint_encode v).length = varint_size v := by
  have h : v % 2 ^ 64 < 2 ^ 64 := Nat.mod_lt _ (by norm_num)
  unfold varint_encode varint_size
  generalize v % 2 ^ 64 = w at h
  split_ifs
  · exact varint_encode_loop_length 10 0 w (by norm_num) (Or.inr rfl) (by norm_num at *; omega)
  · exact varint_encode_loop_length 10 1 w (by norm_num) (Or.inl (by norm_num at *; omega))
      (by norm_num at *; omega)
  · exact varint_encode_loop_length 10 2 w (by norm_num) (Or.inl (by norm_num at *; omega))
      (by norm_num at *; omega)
  · exact varint_encode_loop_length 10 3 w (by norm_num) (Or.inl (by norm_num at *; omega))
      (by norm_num at *; omega)
  · exact varint_encode_loop_length 10 4 w (by norm_num) (Or.inl (by norm_num at *; omega))
      (by norm_num at *; omega)
  · exact varint_encode_loop_length 10 5 w (by norm_num) (Or.inl (by norm_num at *; omega))
      (by norm_num at *; omega)
  · exact varint_encode_loop_length 10 6 w (by norm_num) (Or.inl (by norm_num at *; omega))
      (by norm_num at *; omega)
  · exact varint_encode_loop_length 10 7 w (by norm_num) (Or.inl (by norm_num at *; omega))
      (by norm_num at *; omega)
  · exact varint_encode_loop_length 10 8 w (by norm_num) (Or.inl (by norm_num at *; omega))
      (by norm_num at *; omega)
  · exact varint_encode_loop_length 10 9 w (by norm_num) (Or.inl (by norm_num at *; omega))
      (by norm_num at *; omega)

theorem fixed_encode_length (w v : Nat) : (fixed_encode w v).length = w := by
  induction w generalizing v with
  | zero => rfl
  | succ n ih => simp [fixed_encode, ih]

theorem pack_scalar_length (t : ProtobufCType) (bits : Nat) :
    (pack_scalar t bits).length = scalar_size t bits := by
  unfold pack_scalar scalar_size
  cases wire_type_of t <;> simp [varint_encode_length, fixed_encode_length]

theorem pack_key_length (tag : Nat) (w : ProtobufCWireType) :
    (pack_key tag w).length = key_size tag w := by
  simp [pack_key, key_size, varint_encode_length]

theorem pack_unknown_fields_length (us : List ProtobufCMessageUnknownField) :
    (pack_unknown_fields us).length = unknown_fields_size us := by
  induction us with
  | nil => rfl
  | cons u us ih =>
    simp [pack_unknown_fields, unknown_fields_size, pack_key_length, ih]
    omega

mutual
theorem pack_value_length (descs : DescriptorTable) (t : ProtobufCType) :
    ∀ v : ProtobufCValue, (pack_value descs t v).length = value_size descs t v
  | .num bits => by simp [pack_value, value_size, pack_scalar_length]
  | .str chars => by simp [pack_value, value_size, varint_encode_length]
  | .bin data => by simp [pack_value, value_size, varint_encode_length]
  | .msg m => by
    simp [pack_value, value_size, varint_encode_length, message_bytes_length descs m]
theorem message_bytes_length (descs : DescriptorTable) :
    ∀ m : MessageRecord,
      (message_bytes descs m).length = protobuf_c_message_get_packed_size descs m
  | .mk d fields unknown => by
    simp [message_bytes, protobuf_c_message_get_packed_size,
      pack_slots_length descs (descs d).fields fields, pack_unknown_fields_length]
theorem pack_slots_length (descs : DescriptorTable) :
    ∀ (fs : List ProtobufCFieldDescriptor) (slots : List (List ProtobufCValue)),
      (pack_slots descs fs slots).length = slots_size descs fs slots
  | [], _ => by simp [pack_slots, slots_size]
  | _ :: _, [] => by simp [pack_slots, slots_size]
  | f :: fs, slot :: slots => by
    simp only [pack_slots, slots_size, List.length_append,
      pack_slots_length descs fs slots]
    congr 1
    split_ifs <;>
      simp [pack_key_length, varint_encode_length, pack_elements_length descs f.type slot,
        pack_occurrences_length descs f slot]
theorem pack_elements_length (descs : DescriptorTable) (t : ProtobufCType) :
    ∀ vs : List ProtobufCValue,
      (pack_elements descs t vs).length = elements_size descs t vs
  | [] => by simp [pack_elements, elements_size]
  | v :: vs => by
    simp [pack_elements, elements_size, pack_value_length descs t v,
      pack_elements_length descs t vs]
theorem pack_occurrences_length (descs : DescriptorTable) (f : ProtobufCFieldDescriptor) :
    ∀ vs : List ProtobufCValue,
      (pack_occurrences descs f vs).length = occurrences_size descs f vs
  | [] => by simp [pack_occurrences, occurrences_size]
  | v :: vs => by
    simp [pack_occurrences, occurrences_size, pack_key_length, pack_value_length descs f.type v,
      pack_occurrences_length descs f vs]
    omega
end

/-- C1: for every message, `protobuf_c_message_get_packed_size` equals the
number of bytes `protobuf_c_message_pack` writes and returns, so a buffer of
exactly that many bytes is filled by pack and not exceeded. -/
theorem get_packed_size_eq_pack (descs : DescriptorTable) (m : MessageRecord)
    (out : List Nat) :
    (protobuf_c_message_pack descs m out).1 = protobuf_c_message_get_packed_size descs m ∧
    (message_bytes descs m).length = protobuf_c_message_get_packed_size descs m ∧
    (protobuf_c_message_pack descs m out).2 =
      message_bytes descs m ++ out.drop (protobuf_c_message_get_packed_size descs m) ∧
    (protobuf_c_message_pack descs m out).2.length =
      max out.length (protobuf_c_message_get_packed_size descs m) ∧
    (protobuf_c_message_pack descs m
      (List.replicate (protobuf_c_message_get_packed_size descs m) 0)).2 =
      message_bytes descs m := by
  have h := message_bytes_length descs m
  refine ⟨?_, h, ?_, ?_, ?_⟩
  · simp [protobuf_c_message_pack, h]
  · simp [protobuf_c_message_pack, h]
  · simp only [protobuf_c_message_pack, List.length_append, List.length_drop, h]
    omega
  · simp [protobuf_c_message_pack, h]

/-! ## The scan pass reads back what pack writes -/

/-- Scenario 1: `a = 150, b = "testing"` is written as
`08 96 01 12 07 74 65 73 74 69 6E 67`. -/
theorem scenario_int32_and_string :
    message_bytes example_descs
      (.mk 1 [[.num 150], [.str [0x74, 0x65, 0x73, 0x74, 0x69, 0x6e, 0x67]], [], [], [], []] []) =
      [0x08, 0x96, 0x01, 0x12, 0x07, 0x74, 0x65, 0x73, 0x74, 0x69, 0x6e, 0x67] := by
  decide

/-- Scenario 2: the packed `nums = [1, 2, 150]` of tag 4 is written as
`22 04 01 02 96 01`. -/
theorem scenario_packed :
    pack_slots example_descs (example_descs 1).fields
      [[], [], [.num 1, .num 2, .num 150], [], [], []] =
      [0x22, 0x04, 0x01, 0x02, 0x96, 0x01] := by
  decide

/-- Scenario 3: ZigZag: the `sint32` value -1 has payload `01`, the value 1 has
payload `02`, and the key of tag 1 with VARINT is `08`. -/
theorem scenario_zigzag :
    pack_scalar PROTOBUF_C_TYPE_SINT32 (2 ^ 32 - 1) = [0x01] ∧
    pack_scalar PROTOBUF_C_TYPE_SINT32 1 = [0x02] ∧
    pack_key 1 PROTOBUF_C_WIRE_TYPE_VARINT = [0x08] := by
  decide

/-- Scenario 4: decoding `08 96 01 10 2A` against a schema with only field 1
gives `a = 150` and one unknown field `(tag 2, VARINT, 2A)`, which is written
back as `10 2A` after the known field. -/
theorem scenario_unknown_field :
    protobuf_c_message_unpack single_field_descs 1 5 [0x08, 0x96, 0x01, 0x10, 0x2a] =
      some (.mk 1 [[.num 150]]
        [{ tag := 2, wire_type := PROTOBUF_C_WIRE_TYPE_VARINT, data := [0x2a] }]) ∧
    message_bytes single_field_descs (.mk 1 [[.num 150]]
        [{ tag := 2, wire_type := PROTOBUF_C_WIRE_TYPE_VARINT, data := [0x2a] }]) =
      [0x08, 0x96, 0x01, 0x10, 0x2a] := by
  constructor
  · rfl
  · decide

/-- Scenario 6: the truncated input `08 96` (varint not terminated) gives null. -/
theorem scenario_truncated :
    protobuf_c_message_unpack single_field_descs 1 2 [0x08, 0x96] = none := by
  rfl

/-- A BOOL member other than 0 and 1 does not survive the round trip: a
`protobuf_c_boolean` of 2 is written as the byte 1 and read back as 1.  This is
why a well-formed message holds only 0 or 1 in a BOOL member. -/
theorem scenario_bool_normalised :
    message_ok bool_field_descs (.mk 1 [[.num 2]] []) = false ∧
    message_bytes bool_field_descs (.mk 1 [[.num 2]] []) = [0x08, 0x01] ∧
    protobuf_c_message_unpack bool_field_descs 1 2 [0x08, 0x01] =
      some (.mk 1 [[.num 1]] []) := by
  refine ⟨by decide, by decide, rfl⟩

end ProtobufC
